/-
Verification of the AppLocker policy translator: a shallow embedding of the
custom XML extractor in AppLockerXmlParser.cpp (document splitting, rule and
extensions extraction, rule-collection parsing), of the document assembly in
AppLockerPolicy_CSP.cpp, of the registry application path in
AppLockerPolicy_LGPO.cpp, and of the save-retry policy in LocalGPO.cpp, over
`List Char` strings, together with proofs of the specified properties.
-/
import Mathlib

set_option maxRecDepth 8000


/-! ## Definitions: strings, searching, and the embedded operations -/


abbrev Str := List Char

/-- Shallow embedding of the bounded substring test behind `std::wstring::find`:
`matchAt s pat j` holds when `pat` occurs in `s` starting at index `j`. -/
def matchAt (s pat : Str) (j : Nat) : Bool :=
  decide ((s.drop j).take pat.length = pat)

/-- Worker for `strFind`: scans indices `a, a+1, ...` while fuel lasts. -/
def findAux (s pat : Str) (a fuel : Nat) : Option Nat :=
  match fuel with
  | 0 => none
  | fuel' + 1 => if matchAt s pat a then some a else findAux s pat (a + 1) fuel'

/-- Shallow embedding of `std::wstring::find(pat, a)`: index of the first
occurrence of `pat` at or after `a`, or `none` for `npos`. -/
def strFind (s pat : Str) (a : Nat) : Option Nat :=
  findAux s pat a (s.length + 1 - a)

/-- `"AppLockerPolicy"` with `<` prepended: the document root marker tested by
`ParseRuleCollections`. -/
def policyRootStartMark : Str := ("<AppLockerPolicy").toList

/-- `"<RuleCollection "` (trailing space): the rule-collection start marker. -/
def rcStartMark : Str := ("<RuleCollection ").toList

/-- `"Type"`. -/
def typeMark : Str := ("Type").toList

/-- A double-quote character, searched as `find(L'"', ...)`. -/
def dqMark : Str := ("\"").toList

/-- `"<"`. -/
def ltMark : Str := ("<").toList

/-- `">"`. -/
def gtMark : Str := (">").toList

/-- `"/>"`: the self-closing end marker. -/
def selfCloseMark : Str := ("/>").toList

/-- `"</RuleCollection>"`: the explicit end tag. -/
def rcEndTag : Str := ("</RuleCollection>").toList

/-- `"EnforcementMode"`. -/
def emMark : Str := ("EnforcementMode").toList

/-- `"NotConfigured"`. -/
def ncMark : Str := ("NotConfigured").toList

/-- `"Enabled"`. -/
def enabledMark : Str := ("Enabled").toList

/-- `"AuditOnly"`. -/
def auditOnlyMark : Str := ("AuditOnly").toList

/-- `"Id"`. -/
def idMark : Str := ("Id").toList

/-- `substr(pos, len)` on wide strings: clamped like `std::wstring::substr`
for in-range `pos`. -/
def substr (s : Str) (pos len : Nat) : Str := (s.drop pos).take len

/-- Rule structure from AppLockerXmlParser.h: GUID text and raw markup. -/
structure RuleInfo where
  sGuid : Str
  sXml : Str
deriving DecidableEq, Repr

/-- `RuleCollectionExtensions_t` from AppLockerXmlParser.h. -/
structure RuleCollectionExtensions where
  bServicesModePresent : Bool
  dwServiceEnforcementMode : Nat
  dwAllowWindows : Nat
deriving DecidableEq, Repr

/-- The `Clear()` state: all fields zeroed, as set by the default constructor. -/
instance : Inhabited RuleCollectionExtensions := ⟨⟨false, 0, 0⟩⟩

/-- The five rule-collection types distinguished by `ParseRuleCollections`. -/
inductive RuleCollectionType where
  | Exe | Dll | Msi | Script | Appx
deriving DecidableEq, Repr

/-- The five output fragments of `ParseRuleCollections`. -/
structure RuleCollections where
  sExePolicy : Str
  sDllPolicy : Str
  sMsiPolicy : Str
  sScriptPolicy : Str
  sAppxPolicy : Str
deriving DecidableEq, Repr

/-- The cleared output state at the start of `ParseRuleCollections`. -/
def emptyCollections : RuleCollections := ⟨[], [], [], [], []⟩

/-- Assignment to the output parameter selected by the type discriminator. -/
def setPolicy (rc : RuleCollections) (ty : RuleCollectionType) (f : Str) : RuleCollections :=
  match ty with
  | .Exe => { rc with sExePolicy := f }
  | .Dll => { rc with sDllPolicy := f }
  | .Msi => { rc with sMsiPolicy := f }
  | .Script => { rc with sScriptPolicy := f }
  | .Appx => { rc with sAppxPolicy := f }

/-- Read the fragment of one type. -/
def getPolicy (rc : RuleCollections) (ty : RuleCollectionType) : Str :=
  match ty with
  | .Exe => rc.sExePolicy
  | .Dll => rc.sDllPolicy
  | .Msi => rc.sMsiPolicy
  | .Script => rc.sScriptPolicy
  | .Appx => rc.sAppxPolicy

/-- The three-character type discriminator comparison chain from
`ParseRuleCollections` (`sType == L"Exe"` etc.). -/
def typeOfTriple (s : Str) : Option RuleCollectionType :=
  if s = ("Exe").toList then some .Exe
  else if s = ("Dll").toList then some .Dll
  else if s = ("Msi").toList then some .Msi
  else if s = ("Scr").toList then some .Script
  else if s = ("App").toList then some .Appx
  else none

/-- Extent detection for one rule collection, from `ParseRuleCollections`:
look for `"/>"`; if it is missing, or a `"<"` occurs before it, fall back to
the explicit `"</RuleCollection>"` end tag. Returns the end-marker index and
the end marker's length. -/
def findCollectionEnd (doc : Str) (ixDQ : Nat) : Option (Nat × Nat) :=
  let ixNextLT := strFind doc ltMark ixDQ
  let ixEndSC := strFind doc selfCloseMark ixDQ
  match ixEndSC with
  | none => (strFind doc rcEndTag ixDQ).map (fun e => (e, rcEndTag.length))
  | some e =>
    match ixNextLT with
    | none => some (e, selfCloseMark.length)
    | some l =>
      if l < e then (strFind doc rcEndTag ixDQ).map (fun e2 => (e2, rcEndTag.length))
      else some (e, selfCloseMark.length)

/-- The scanning loop of `ParseRuleCollections`, fueled (the fuel is an upper
bound on loop iterations; the top-level entry supplies enough). -/
def splitScan (doc : Str) (ixRC : Nat) (acc : RuleCollections) (fuel : Nat) :
    Option RuleCollections :=
  match fuel with
  | 0 => none
  | fuel + 1 =>
    match strFind doc rcStartMark ixRC with
    | none => some acc
    | some i =>
      match strFind doc typeMark i with
      | none => none
      | some t =>
        match strFind doc dqMark t with
        | none => none
        | some d =>
          match findCollectionEnd doc d with
          | none => none
          | some (e, elen) =>
            let substrLen := e + elen - i
            match typeOfTriple (substr doc (d + 1) 3) with
            | none => none
            | some ty =>
              splitScan doc (i + substrLen) (setPolicy acc ty (substr doc i substrLen)) fuel

/-- `AppLockerXmlParser::ParseRuleCollections`: split policy XML into the five
typed rule-collection fragments; `none` models a `false` return. -/
def ParseRuleCollections (sPolicyXml : Str) : Option RuleCollections :=
  match strFind sPolicyXml policyRootStartMark 0 with
  | none => none
  | some _ => splitScan sPolicyXml 0 emptyCollections (sPolicyXml.length + 1)

/-- The loop of `AppLockerXmlParser::ParseRules`, fueled. Returns the final
`(return value, rules out-parameter)` pair; on failure the out-parameter keeps
the rules accumulated so far, as in the source. -/
def parseRulesLoop (sXml sStart sEnd : Str) (ixRuleStart : Nat)
    (rules : List RuleInfo) (fuel : Nat) : Bool × List RuleInfo :=
  match fuel with
  | 0 => (false, rules)
  | fuel + 1 =>
    match strFind sXml sStart ixRuleStart with
    | none => (true, rules)
    | some i =>
      match strFind sXml sEnd i with
      | none => (false, rules)
      | some j =>
        match strFind sXml gtMark j with
        | none => (false, rules)
        | some k =>
          let ruleXml := substr sXml i (k + 1 - i)
          match strFind ruleXml idMark 0 with
          | none => (false, rules)
          | some ixId =>
            match strFind ruleXml dqMark ixId with
            | none => (false, rules)
            | some q0 =>
              match strFind ruleXml dqMark (q0 + 1) with
              | none => (false, rules)
              | some q1 =>
                let guid := substr ruleXml (q0 + 1) (q1 - (q0 + 1))
                parseRulesLoop sXml sStart sEnd (i + ruleXml.length)
                  (rules ++ [⟨guid, ruleXml⟩]) fuel

/-- `AppLockerXmlParser::ParseRules` for one rule element name: searches for
`"<" + name` / `"</" + name` spans and captures GUID and raw markup. -/
def ParseRules (sXml name : Str) (rules : List RuleInfo) : Bool × List RuleInfo :=
  parseRulesLoop sXml ('<' :: name) ('<' :: '/' :: name) 0 rules (sXml.length + 2)

/-- `"FilePathRule"`. -/
def filePathRuleName : Str := ("FilePathRule").toList

/-- `"FilePublisherRule"`. -/
def filePublisherRuleName : Str := ("FilePublisherRule").toList

/-- `"FileHashRule"`. -/
def fileHashRuleName : Str := ("FileHashRule").toList

/-- `"<RuleCollectionExtensions"`. -/
def rceStartMark : Str := ("<RuleCollectionExtensions").toList

/-- `"</RuleCollectionExtensions"`. -/
def rceEndMark : Str := ("</RuleCollectionExtensions").toList

/-- `"<ThresholdExtensions"`. -/
def thresholdStartMark : Str := ("<ThresholdExtensions").toList

/-- `"</ThresholdExtensions"`. -/
def thresholdEndMark : Str := ("</ThresholdExtensions").toList

/-- `"<RedstoneExtensions"`. -/
def redstoneStartMark : Str := ("<RedstoneExtensions").toList

/-- `"</RedstoneExtensions"`. -/
def redstoneEndMark : Str := ("</RedstoneExtensions").toList

/-- `"<Services"`. -/
def servicesStartMark : Str := ("<Services").toList

/-- `"<SystemApps"`. -/
def systemAppsStartMark : Str := ("<SystemApps").toList

/-- `"Allow"`. -/
def allowMark : Str := ("Allow").toList

/-- `"ServicesOnly"`. -/
def servicesOnlyVal : Str := ("ServicesOnly").toList

/-- `"NotEnabled"`. -/
def notEnabledVal : Str := ("NotEnabled").toList

/-- The `<Services EnforcementMode="...">` section of `ParseExtensions`:
given the captured ThresholdExtensions text, update the cleared extensions.
`none` models the hard failure on a missing quote delimiter. -/
def parseServicesExt (sThreshold : Str) (ext : RuleCollectionExtensions) :
    Option RuleCollectionExtensions :=
  match strFind sThreshold servicesStartMark 0 with
  | none => some ext
  | some ixServicesStart =>
    match strFind sThreshold emMark ixServicesStart with
    | none => some ext
    | some ixEM =>
      match strFind sThreshold dqMark ixEM with
      | none => none
      | some q0 =>
        match strFind sThreshold dqMark (q0 + 1) with
        | none => none
        | some q1 =>
          let v := substr sThreshold (q0 + 1) (q1 - (q0 + 1))
          if v = ncMark then some ext
          else if v = enabledMark then
            some { ext with bServicesModePresent := true, dwServiceEnforcementMode := 1 }
          else if v = servicesOnlyVal then
            some { ext with bServicesModePresent := true, dwServiceEnforcementMode := 2 }
          else some ext

/-- The `<SystemApps Allow="...">` section of `ParseExtensions`. -/
def parseSystemAppsExt (sRedstone : Str) (ext : RuleCollectionExtensions) :
    Option RuleCollectionExtensions :=
  match strFind sRedstone systemAppsStartMark 0 with
  | none => some ext
  | some ixSystemAppsStart =>
    match strFind sRedstone allowMark ixSystemAppsStart with
    | none => some ext
    | some ixAllow =>
      match strFind sRedstone dqMark ixAllow with
      | none => none
      | some q0 =>
        match strFind sRedstone dqMark (q0 + 1) with
        | none => none
        | some q1 =>
          let v := substr sRedstone (q0 + 1) (q1 - (q0 + 1))
          if v = notEnabledVal then some { ext with dwAllowWindows := 0 }
          else if v = enabledMark then some { ext with dwAllowWindows := 1 }
          else some ext

/-- `AppLockerXmlParser::ParseExtensions`. Returns the `(return value,
extensions out-parameter)` pair; on an early `false` return the out-parameter
keeps its state at the failure point, as in the source. -/
def ParseExtensions (sRuleCollectionXml : Str) : Bool × RuleCollectionExtensions :=
  let ext0 : RuleCollectionExtensions := default
  match strFind sRuleCollectionXml rceStartMark 0 with
  | none => (true, ext0)
  | some ixStart =>
    match strFind sRuleCollectionXml rceEndMark ixStart with
    | none => (false, ext0)
    | some ixEnd =>
      let sExt := substr sRuleCollectionXml ixStart (ixEnd - ixStart)
      match strFind sExt thresholdStartMark 0, strFind sExt redstoneStartMark 0 with
      | none, _ => (false, ext0)
      | some _, none => (false, ext0)
      | some ixT, some ixR =>
        match strFind sExt thresholdEndMark ixT, strFind sExt redstoneEndMark ixR with
        | none, _ => (false, ext0)
        | some _, none => (false, ext0)
        | some ixTE, some ixRE =>
          let sThreshold := substr sExt ixT (ixTE - ixT)
          let sRedstone := substr sExt ixR (ixRE - ixR)
          match parseServicesExt sThreshold ext0 with
          | none => (false, ext0)
          | some ext1 =>
            match parseSystemAppsExt sRedstone ext1 with
            | none => (false, ext1)
            | some ext2 => (true, ext2)

/-- `AppLockerXmlParser::ParseRuleCollection`. Returns the final
`(return value, dwEnforcementMode, extensions, rules)` out-parameter states. -/
def ParseRuleCollection (sRuleCollectionXml : Str) :
    Bool × Nat × RuleCollectionExtensions × List RuleInfo :=
  match strFind sRuleCollectionXml gtMark 0 with
  | none => (false, 0, default, [])
  | some ixFirstGT =>
    let sElem := substr sRuleCollectionXml 0 ixFirstGT
    match strFind sElem emMark 0 with
    | none => (false, 0, default, [])
    | some ixEnforce =>
      if (strFind sElem ncMark ixEnforce).isSome then (true, 0, default, [])
      else if (strFind sElem enabledMark ixEnforce).isSome ∨
              (strFind sElem auditOnlyMark ixEnforce).isSome then
        let dw : Nat := if (strFind sElem enabledMark ixEnforce).isSome then 1 else 0
        match ParseRules sRuleCollectionXml filePathRuleName [] with
        | (false, rs) => (false, dw, default, rs)
        | (true, rs1) =>
          match ParseRules sRuleCollectionXml filePublisherRuleName rs1 with
          | (false, rs) => (false, dw, default, rs)
          | (true, rs2) =>
            match ParseRules sRuleCollectionXml fileHashRuleName rs2 with
            | (false, rs) => (false, dw, default, rs)
            | (true, rs3) =>
              match ParseExtensions sRuleCollectionXml with
              | (false, ext) => (false, dw, ext, rs3)
              | (true, ext) => (true, dw, ext, rs3)
      else (false, 0, default, [])

/-- A line break, as produced by `std::endl` / `L"\n"` in the source. -/
def nlStr : Str := [Char.ofNat 10]

/-- The XML declaration line emitted by `AppLockerPolicy_t::Policy`. -/
def xmlDeclLine : Str := ("<?xml version=\"1.0\" encoding=\"utf-8\"?>").toList

/-- The root start tag `<AppLockerPolicy Version="1">`. -/
def policyRootOpenTag : Str := ("<AppLockerPolicy Version=\"1\">").toList

/-- The root end tag `</AppLockerPolicy>`. -/
def policyRootCloseTag : Str := ("</AppLockerPolicy>").toList

/-- A non-empty fragment contributes its text followed by a line break (the
per-instance accumulation `m_ruleCollections += sPolicy + L"\n"` of
`AppLockerPolicy_CSP::GetPolicyProperties`); an empty fragment contributes
nothing. -/
def fragmentBlock (f : Str) : Str := if f = [] then [] else f ++ nlStr

/-- Document assembly per `AppLockerPolicy_t::Policy`: XML declaration line,
root start tag with `Version="1"`, the non-empty rule-collection fragments in
the fixed Exe, Dll, Msi, Script, Appx order each followed by a line break, and
the root end tag. -/
def AssemblePolicyDocument (rc : RuleCollections) : Str :=
  xmlDeclLine ++ nlStr ++ policyRootOpenTag ++ nlStr ++
  fragmentBlock rc.sExePolicy ++ fragmentBlock rc.sDllPolicy ++
  fragmentBlock rc.sMsiPolicy ++ fragmentBlock rc.sScriptPolicy ++
  fragmentBlock rc.sAppxPolicy ++ policyRootCloseTag

/-- One step of `AppLockerPolicy_CSP::GetPolicyProperties`: record one class
instance's `(policy name, rule collection markup)` under its name, creating a
new entry with `sPolicy + "\n"` or appending `sPolicy + "\n"` to an existing
entry. -/
def cspAddPolicyInstance (policies : List (Str × Str)) (sPolicyName sPolicy : Str) :
    List (Str × Str) :=
  match policies with
  | [] => [(sPolicyName, sPolicy ++ nlStr)]
  | (n, p) :: rest =>
    if n = sPolicyName then (n, p ++ (sPolicy ++ nlStr)) :: rest
    else (n, p) :: cspAddPolicyInstance rest sPolicyName sPolicy

/-- The accumulation loop of `GetPolicyProperties` over the retrieved class
instances. -/
def GetPolicyProperties (instances : List (Str × Str)) : List (Str × Str) :=
  instances.foldl (fun m i => cspAddPolicyInstance m i.1 i.2) []

/-- `HRESULT_FROM_WIN32(ERROR_SHARING_VIOLATION)` = 0x80070020. -/
def hrSharingViolation : Nat := 0x80070020

/-- `const int retries = 20` in `LocalGPO::SaveWithRetries`. -/
def saveRetries : Nat := 20

/-- `const DWORD retryDelay_ms = 500` in `LocalGPO::SaveWithRetries`. -/
def saveRetryDelayMs : Nat := 500

/-- The retry loop of `LocalGPO::SaveWithRetries`. `save i` is the result of
the (i+1)-th invocation of `IGroupPolicyObject::Save`; `attempt` is the index
of the next invocation, `hrPrev` the last result (a sharing violation), and
the third argument the remaining retries. Returns the surfaced result and the
total number of invocations. -/
def saveRetryLoop (save : Nat → Nat) (attempt hrPrev : Nat) : Nat → Nat × Nat
  | 0 => (hrPrev, attempt)
  | rem + 1 =>
    let hr := save attempt
    if hr = hrSharingViolation then saveRetryLoop save (attempt + 1) hr rem
    else (hr, attempt + 1)

/-- `LocalGPO::SaveWithRetries`: call `Save` once; on a sharing violation
retry up to `saveRetries` times; surface any other result immediately.
Returns the surfaced `HRESULT` and the number of `Save` invocations. -/
def SaveWithRetries (save : Nat → Nat) : Nat × Nat :=
  let hr := save 0
  if hr = hrSharingViolation then saveRetryLoop save 1 hr saveRetries
  else (hr, 1)

/-- Outcome of the registry writes performed by `ApplyRuleCollection` in
AppLockerPolicy_LGPO.cpp, modelled as the data written. -/
inductive ApplyResult where
  /-- Empty input fragment: nothing written, success. -/
  | noop
  /-- `ParseRuleCollection` failed: nothing written, failure. -/
  | failed
  /-- Values written under the rule collection's subkey: the
  `EnforcementMode` DWORD, the `AllowWindows` DWORD, and one subkey per rule
  (GUID, raw markup). -/
  | written (dwEnforcementMode dwAllowWindows : Nat) (rules : List RuleInfo)
deriving DecidableEq, Repr

/-- `ApplyRuleCollection` (AppLockerPolicy_LGPO.cpp): parse the fragment and
write enforcement mode, a constant-zero `AllowWindows` value, and the rules
into the registry replica; the parsed extensions are dropped. -/
def ApplyRuleCollection (sRuleCollectionXml : Str) : ApplyResult :=
  if sRuleCollectionXml.length = 0 then .noop
  else
    match ParseRuleCollection sRuleCollectionXml with
    | (false, _, _, _) => .failed
    | (true, dw, _, rules) => .written dw 0 rules

/-- Companion recursion to `splitScan`: does the scan reach a rule collection
whose three-character type discriminator is outside the known five? -/
def scanHitsBadType (doc : Str) (ixRC : Nat) (fuel : Nat) : Bool :=
  match fuel with
  | 0 => false
  | fuel + 1 =>
    match strFind doc rcStartMark ixRC with
    | none => false
    | some i =>
      match strFind doc typeMark i with
      | none => false
      | some t =>
        match strFind doc dqMark t with
        | none => false
        | some d =>
          match findCollectionEnd doc d with
          | none => false
          | some (e, elen) =>
            match typeOfTriple (substr doc (d + 1) 3) with
            | none => true
            | some _ => scanHitsBadType doc (i + (e + elen - i)) fuel

/-- Companion recursion to `parseRulesLoop`: does the scan capture a rule span
that lacks the literal `Id` or one of the two quote delimiters after it? -/
def rulesScanHitsBadSpan (sXml sStart sEnd : Str) (ixRuleStart : Nat) (fuel : Nat) : Bool :=
  match fuel with
  | 0 => false
  | fuel + 1 =>
    match strFind sXml sStart ixRuleStart with
    | none => false
    | some i =>
      match strFind sXml sEnd i with
      | none => false
      | some j =>
        match strFind sXml gtMark j with
        | none => false
        | some k =>
          let ruleXml := substr sXml i (k + 1 - i)
          match strFind ruleXml idMark 0 with
          | none => true
          | some ixId =>
            match strFind ruleXml dqMark ixId with
            | none => true
            | some q0 =>
              match strFind ruleXml dqMark (q0 + 1) with
              | none => true
              | some _ => rulesScanHitsBadSpan sXml sStart sEnd (i + ruleXml.length) fuel

/-- Does the opening tag of a rule-collection fragment select the
`NotConfigured` early-success return of `ParseRuleCollection`? -/
def ncSelected (sRuleCollectionXml : Str) : Bool :=
  match strFind sRuleCollectionXml gtMark 0 with
  | none => false
  | some ixFirstGT =>
    let sElem := substr sRuleCollectionXml 0 ixFirstGT
    match strFind sElem emMark 0 with
    | none => false
    | some ixEnforce => (strFind sElem ncMark ixEnforce).isSome

/-- Modelled from the spec (§4.1): an element is treated as self-closing
exactly when `"/>"` is found after the `Type` attribute's opening quote with
no `"<"` occurring before it. -/
def specSelfClosing (doc : Str) (ixDQ : Nat) : Bool :=
  match strFind doc selfCloseMark ixDQ with
  | none => false
  | some e =>
    match strFind doc ltMark ixDQ with
    | none => true
    | some l => decide (¬ l < e)

/-- A fragment as captured by one iteration of the `ParseRuleCollections`
scan: it starts with the rule-collection marker and carries, wholly inside
itself, the `Type` attribute find, its opening quote, a valid type triple and
its own end marker, which closes the fragment exactly. -/
def GoodFrag (f : Str) (ty : RuleCollectionType) : Prop :=
  matchAt f rcStartMark 0 = true ∧
  ∃ rt rd re elen,
    strFind f typeMark 0 = some rt ∧
    strFind f dqMark rt = some rd ∧
    rd + 4 ≤ f.length ∧
    typeOfTriple (substr f (rd + 1) 3) = some ty ∧
    findCollectionEnd f rd = some (re, elen) ∧
    re + elen = f.length

/-- Every non-empty output slot holds a well-formed captured fragment of its
own type. -/
def SlotsGood (rc : RuleCollections) : Prop :=
  ∀ ty, getPolicy rc ty ≠ [] → GoodFrag (getPolicy rc ty) ty

/-- A text block that the rule-collection marker search skips entirely: it
contains no marker and no suffix of it starts the marker. -/
def Pskip (p : Str) : Prop :=
  strFind p rcStartMark 0 = none ∧
  ∀ k, k < 16 → 0 < k → p.drop (p.length - k) ≠ rcStartMark.take k

/-- The document tail emitted after the root opening by the assembler:
the fragments each followed by a line break, then the root end tag. -/
def joinEnd : List (RuleCollectionType × Str) → Str
  | [] => policyRootCloseTag
  | (_, f) :: rest => f ++ (nlStr ++ joinEnd rest)

/-- Record a list of typed fragments into the output structure in order. -/
def applyFrags (acc : RuleCollections) : List (RuleCollectionType × Str) → RuleCollections
  | [] => acc
  | (ty, f) :: rest => applyFrags (setPolicy acc ty f) rest

/-- Declaration line, root opening tag and their line breaks. -/
def policyDocPreamble : Str := xmlDeclLine ++ nlStr ++ policyRootOpenTag ++ nlStr

/-- The non-empty fragments of a split result, in the assembler's fixed
Exe, Dll, Msi, Script, Appx order. -/
def fragsList (rc : RuleCollections) : List (RuleCollectionType × Str) :=
  (if rc.sExePolicy = [] then [] else [(RuleCollectionType.Exe, rc.sExePolicy)]) ++
  (if rc.sDllPolicy = [] then [] else [(RuleCollectionType.Dll, rc.sDllPolicy)]) ++
  (if rc.sMsiPolicy = [] then [] else [(RuleCollectionType.Msi, rc.sMsiPolicy)]) ++
  (if rc.sScriptPolicy = [] then [] else [(RuleCollectionType.Script, rc.sScriptPolicy)]) ++
  (if rc.sAppxPolicy = [] then [] else [(RuleCollectionType.Appx, rc.sAppxPolicy)])

/-- A one-collection policy document (used by the C1 witness). -/
def docC1W : Str := ("<AppLockerPolicy Version=\"1\"><RuleCollection Type=\"Exe\" EnforcementMode=\"Enabled\"/></AppLockerPolicy>").toList

/-- The Exe fragment of `docC1W`. -/
def fragC1W : Str := ("<RuleCollection Type=\"Exe\" EnforcementMode=\"Enabled\"/>").toList

/-- The expected split of `docC1W`. -/
def rcC1W : RuleCollections := ⟨fragC1W, [], [], [], []⟩

/-- A document with two Exe rule collections (claim C2). -/
def docC2X : Str := ("<AppLockerPolicy><RuleCollection Type=\"Exe\" EnforcementMode=\"Enabled\"/><RuleCollection Type=\"Exe\" EnforcementMode=\"AuditOnly\"/></AppLockerPolicy>").toList

/-- The first Exe occurrence in `docC2X`. -/
def fragC2a : Str := ("<RuleCollection Type=\"Exe\" EnforcementMode=\"Enabled\"/>").toList

/-- The second Exe occurrence in `docC2X`. -/
def fragC2b : Str := ("<RuleCollection Type=\"Exe\" EnforcementMode=\"AuditOnly\"/>").toList

/-- A NotConfigured rule collection that textually contains a rule element
lacking an `Id` attribute (claims C3 and C5). -/
def fragC3NC : Str := ("<RuleCollection Type=\"Exe\" EnforcementMode=\"NotConfigured\"><FilePathRule Name=\"n\"></FilePathRule></RuleCollection>").toList

/-- An Enabled rule collection containing a rule element lacking an `Id`
attribute (C3 amended witness). -/
def fragC3EN : Str := ("<RuleCollection Type=\"Exe\" EnforcementMode=\"Enabled\"><FilePathRule Name=\"n\"></FilePathRule></RuleCollection>").toList

/-- The claim C4 input document, taken as written, with its self-closing
`FilePathRule` element. -/
def docC4 : Str := ("<AppLockerPolicy Version=\"1\"><RuleCollection Type=\"Exe\" EnforcementMode=\"Enabled\"><FilePathRule Id=\"11111111-1111-1111-1111-111111111111\" .../></RuleCollection></AppLockerPolicy>").toList

/-- The Exe fragment that the splitter extracts from `docC4`. -/
def fragC4 : Str := ("<RuleCollection Type=\"Exe\" EnforcementMode=\"Enabled\"><FilePathRule Id=\"11111111-1111-1111-1111-111111111111\" .../></RuleCollection>").toList

/-- The C4 document amended so the rule element carries an explicit end
tag. -/
def docC4A : Str := ("<AppLockerPolicy Version=\"1\"><RuleCollection Type=\"Exe\" EnforcementMode=\"Enabled\"><FilePathRule Id=\"11111111-1111-1111-1111-111111111111\" Action=\"Allow\"></FilePathRule></RuleCollection></AppLockerPolicy>").toList

/-- The Exe fragment of `docC4A`. -/
def fragC4A : Str := ("<RuleCollection Type=\"Exe\" EnforcementMode=\"Enabled\"><FilePathRule Id=\"11111111-1111-1111-1111-111111111111\" Action=\"Allow\"></FilePathRule></RuleCollection>").toList

/-- The rule identifier of the C4 example. -/
def guidC4 : Str := ("11111111-1111-1111-1111-111111111111").toList

/-- The raw rule markup captured from `fragC4A`. -/
def ruleC4 : Str := ("<FilePathRule Id=\"11111111-1111-1111-1111-111111111111\" Action=\"Allow\"></FilePathRule>").toList

/-- Self-closing empty Exe collection (claim C7). -/
def fragC7self : Str := ("<RuleCollection Type=\"Exe\" EnforcementMode=\"Enabled\"/>").toList

/-- Explicitly closed empty Exe collection (claim C7). -/
def fragC7explicit : Str := ("<RuleCollection Type=\"Exe\" EnforcementMode=\"Enabled\"></RuleCollection>").toList

/-- A document whose middle rule collection carries the unknown type
discriminator `Xyz` between two well-formed collections (claim C8). -/
def docC8X : Str := ("<AppLockerPolicy><RuleCollection Type=\"Exe\" EnforcementMode=\"Enabled\"/><RuleCollection Type=\"Xyz\" EnforcementMode=\"Enabled\"/><RuleCollection Type=\"Dll\" EnforcementMode=\"Enabled\"/></AppLockerPolicy>").toList

/-- A fragment with a complete but empty extensions block: both mandatory
sections present, no `Services` or `SystemApps` children (claim C9). -/
def fragC9B : Str := ("<RuleCollection Type=\"Exe\" EnforcementMode=\"Enabled\"><RuleCollectionExtensions><ThresholdExtensions></ThresholdExtensions><RedstoneExtensions></RedstoneExtensions></RuleCollectionExtensions></RuleCollection>").toList

/-- A fragment whose extensions block sets `SystemApps Allow="Enabled"`
(claim C10). -/
def fragC10X : Str := ("<RuleCollection Type=\"Exe\" EnforcementMode=\"Enabled\"><RuleCollectionExtensions><ThresholdExtensions></ThresholdExtensions><RedstoneExtensions><SystemApps Allow=\"Enabled\"/></RedstoneExtensions></RuleCollectionExtensions></RuleCollection>").toList

/-- A commit operation that always reports the sharing violation. -/
def saveAlwaysSV : Nat → Nat := fun _ => hrSharingViolation

/-- A commit operation that reports the sharing violation on its first three
invocations and then succeeds. -/
def saveStops3 : Nat → Nat := fun i => if i < 3 then hrSharingViolation else 0


/-- Companion to `splitScan` that records, in scan order, the typed fragments
the splitter captures; case for case the same scan, so it succeeds exactly
when `splitScan` does. -/
def scanTrace (doc : Str) (ixRC : Nat) (fuel : Nat) :
    Option (List (RuleCollectionType × Str)) :=
  match fuel with
  | 0 => none
  | fuel + 1 =>
    match strFind doc rcStartMark ixRC with
    | none => some []
    | some i =>
      match strFind doc typeMark i with
      | none => none
      | some t =>
        match strFind doc dqMark t with
        | none => none
        | some d =>
          match findCollectionEnd doc d with
          | none => none
          | some (e, elen) =>
            let substrLen := e + elen - i
            match typeOfTriple (substr doc (d + 1) 3) with
            | none => none
            | some ty =>
              (scanTrace doc (i + substrLen) fuel).map
                (fun tr => (ty, substr doc i substrLen) :: tr)

/-- `std::map::find`-style lookup by policy name in the association list that
models the map built by `GetPolicyProperties`. -/
def assocLookup (name : Str) : List (Str × Str) → Option Str
  | [] => none
  | (n, p) :: rest => if n = name then some p else assocLookup name rest

/-- The in-order concatenation, over the instances carrying a given policy
name, of each instance's markup followed by a line break. -/
def nlJoined (name : Str) (instances : List (Str × Str)) : Str :=
  ((instances.filter (fun i => decide (i.1 = name))).map
    (fun i => i.2 ++ nlStr)).join

/-! ## Theorems -/


theorem matchAt_iff {s pat : Str} {j : Nat} :
    matchAt s pat j = true ↔ (s.drop j).take pat.length = pat := by
  simp [matchAt]

theorem matchAt_length {s pat : Str} {j : Nat} (hp : pat ≠ [])
    (h : matchAt s pat j = true) : j + pat.length ≤ s.length := by
  rw [matchAt_iff] at h
  have h2 : ((s.drop j).take pat.length).length = pat.length := by rw [h]
  have h3 : 0 < pat.length := List.length_pos.mpr hp
  simp only [List.length_take, List.length_drop] at h2
  omega

theorem matchAt_decompose {s pat : Str} {j : Nat} (h : matchAt s pat j = true) :
    s.drop j = pat ++ s.drop (j + pat.length) := by
  rw [matchAt_iff] at h
  conv_lhs => rw [← List.take_append_drop pat.length (s.drop j)]
  rw [h, List.drop_drop]

theorem matchAt_of_drop_eq {s pat rest : Str} {j : Nat}
    (h : s.drop j = pat ++ rest) : matchAt s pat j = true := by
  rw [matchAt_iff, h, List.take_append_of_le_length (Nat.le_refl _), List.take_length]

theorem matchAt_shift {s pat : Str} {a j : Nat} :
    matchAt s pat (a + j) = matchAt (s.drop a) pat j := by
  simp [matchAt, List.drop_drop, Nat.add_comm]

/-- A match that lies entirely inside the left part of an append is a match of
the left part, and conversely. -/
theorem matchAt_append_left {X Y pat : Str} {j : Nat}
    (hj : j + pat.length ≤ X.length) :
    matchAt (X ++ Y) pat j = matchAt X pat j := by
  simp only [matchAt]
  have hdrop : (X ++ Y).drop j = X.drop j ++ Y := by
    rw [List.drop_append_of_le_length (by omega)]
  rw [hdrop]
  have htake : (X.drop j ++ Y).take pat.length = (X.drop j).take pat.length := by
    rw [List.take_append_of_le_length (by simp; omega)]
  rw [htake]

/-- A match inside a `take`-window agrees with a match in the base list. -/
theorem matchAt_take {s pat : Str} {L j : Nat}
    (hj : j + pat.length ≤ L) :
    matchAt (s.take L) pat j = matchAt s pat j := by
  simp only [matchAt]
  have h1 : (s.take L).drop j = (s.drop j).take (L - j) := by
    rw [List.drop_take]
  rw [h1, List.take_take, Nat.min_eq_left (by omega)]

/-- First-character consequence of a match. -/
theorem matchAt_head {s pat : Str} {j : Nat} (hp : pat ≠ [])
    (h : matchAt s pat j = true) : s.get? j = pat.get? 0 := by
  have hd := matchAt_decompose h
  have h0 : (s.drop j).get? 0 = (pat ++ s.drop (j + pat.length)).get? 0 := by rw [hd]
  rw [List.get?_drop, Nat.add_zero] at h0
  rw [h0, List.get?_append (List.length_pos.mpr hp)]

theorem findAux_ge {s pat : Str} {a fuel r : Nat}
    (h : findAux s pat a fuel = some r) : a ≤ r := by
  induction fuel generalizing a with
  | zero => simp [findAux] at h
  | succ n ih =>
    rw [findAux] at h
    split at h
    · simp at h; omega
    · have := ih h; omega

theorem findAux_match {s pat : Str} {a fuel r : Nat}
    (h : findAux s pat a fuel = some r) : matchAt s pat r = true := by
  induction fuel generalizing a with
  | zero => simp [findAux] at h
  | succ n ih =>
    rw [findAux] at h
    split at h
    · simp at h; subst h; assumption
    · exact ih h

theorem findAux_min {s pat : Str} {a fuel r : Nat}
    (h : findAux s pat a fuel = some r) :
    ∀ j, a ≤ j → j < r → matchAt s pat j = false := by
  induction fuel generalizing a with
  | zero => simp [findAux] at h
  | succ n ih =>
    rw [findAux] at h
    by_cases hma : matchAt s pat a = true
    · rw [if_pos hma] at h; simp at h; subst h; intro j h1 h2; omega
    · rw [if_neg hma] at h
      intro j h1 h2
      rcases Nat.eq_or_lt_of_le h1 with rfl | hlt
      · simpa using hma
      · exact ih h j hlt h2

theorem findAux_none {s pat : Str} {a fuel : Nat}
    (h : findAux s pat a fuel = none) :
    ∀ j, a ≤ j → j < a + fuel → matchAt s pat j = false := by
  induction fuel generalizing a with
  | zero => intro j h1 h2; omega
  | succ n ih =>
    rw [findAux] at h
    by_cases hma : matchAt s pat a = true
    · rw [if_pos hma] at h; simp at h
    · rw [if_neg hma] at h
      intro j h1 h2
      rcases Nat.eq_or_lt_of_le h1 with rfl | hlt
      · simpa using hma
      · exact ih h j hlt (by omega)

theorem findAux_complete {s pat : Str} {a fuel r : Nat}
    (hm : matchAt s pat r = true) (h1 : a ≤ r) (h2 : r < a + fuel) :
    ∃ r', findAux s pat a fuel = some r' := by
  induction fuel generalizing a with
  | zero => omega
  | succ n ih =>
    rw [findAux]
    by_cases hma : matchAt s pat a = true
    · rw [if_pos hma]; exact ⟨a, rfl⟩
    · rw [if_neg hma]
      rcases Nat.eq_or_lt_of_le h1 with rfl | hlt
      · exact absurd hm hma
      · exact ih hlt (by omega)

theorem strFind_some_ge {s pat : Str} {a r : Nat}
    (h : strFind s pat a = some r) : a ≤ r := findAux_ge h

theorem strFind_some_match {s pat : Str} {a r : Nat}
    (h : strFind s pat a = some r) : matchAt s pat r = true := findAux_match h

theorem strFind_some_min {s pat : Str} {a r : Nat}
    (h : strFind s pat a = some r) :
    ∀ j, a ≤ j → j < r → matchAt s pat j = false := findAux_min h

theorem strFind_some_len {s pat : Str} {a r : Nat} (hp : pat ≠ [])
    (h : strFind s pat a = some r) : r + pat.length ≤ s.length :=
  matchAt_length hp (strFind_some_match h)

theorem strFind_none {s pat : Str} {a : Nat} (hp : pat ≠ [])
    (h : strFind s pat a = none) :
    ∀ j, a ≤ j → matchAt s pat j = false := by
  intro j hj
  by_cases hb : j < a + (s.length + 1 - a)
  · exact findAux_none h j hj hb
  · by_contra hc
    simp only [Bool.not_eq_false] at hc
    have := matchAt_length hp hc
    have := List.length_pos.mpr hp
    omega

theorem strFind_eq_some_of {s pat : Str} {a r : Nat} (hp : pat ≠ [])
    (hm : matchAt s pat r = true) (har : a ≤ r)
    (hmin : ∀ j, a ≤ j → j < r → matchAt s pat j = false) :
    strFind s pat a = some r := by
  have hlen := matchAt_length hp hm
  have hpos := List.length_pos.mpr hp
  obtain ⟨r', hr'⟩ := @findAux_complete s pat a (s.length + 1 - a) r hm har (by omega)
  have h1 := findAux_ge hr'
  have h2 := findAux_match hr'
  have h3 := findAux_min hr'
  rcases Nat.lt_trichotomy r r' with hlt | heq | hgt
  · rw [h3 r har hlt] at hm; exact absurd hm (by simp)
  · subst heq; exact hr'
  · rw [hmin r' h1 hgt] at h2; exact absurd h2 (by simp)

theorem strFind_eq_none_of {s pat : Str} {a : Nat}
    (hmin : ∀ j, a ≤ j → matchAt s pat j = false) :
    strFind s pat a = none := by
  cases h : strFind s pat a with
  | none => rfl
  | some r =>
    have h1 := strFind_some_ge h
    have h2 := strFind_some_match h
    rw [hmin r h1] at h2
    exact absurd h2 (by simp)

/-- Searching from an offset equals searching the dropped suffix. -/
theorem strFind_drop {s pat : Str} {c b : Nat} (hp : pat ≠ []) :
    strFind s pat (c + b) = (strFind (s.drop c) pat b).map (· + c) := by
  cases h : strFind (s.drop c) pat b with
  | none =>
    simp only [Option.map_none']
    apply strFind_eq_none_of
    intro j hj
    have hj2 : c + (j - c) = j := by omega
    rw [← hj2, matchAt_shift]
    exact strFind_none hp h (j - c) (by omega)
  | some r =>
    simp only [Option.map_some']
    apply strFind_eq_some_of hp
    · rw [show r + c = c + r by omega, matchAt_shift]
      exact strFind_some_match h
    · have := strFind_some_ge h; omega
    · intro j h1 h2
      rw [show j = c + (j - c) by omega, matchAt_shift]
      exact strFind_some_min h (j - c) (by omega) (by omega)

/-- A find that succeeds wholly inside the left part of an append succeeds
identically on the appended list. -/
theorem strFind_append_found {X Y pat : Str} {b r : Nat} (hp : pat ≠ [])
    (h : strFind X pat b = some r) (hr : r + pat.length ≤ X.length) :
    strFind (X ++ Y) pat b = some r := by
  have hpos := List.length_pos.mpr hp
  apply strFind_eq_some_of hp
  · rw [matchAt_append_left hr]; exact strFind_some_match h
  · exact strFind_some_ge h
  · intro j h1 h2
    rw [matchAt_append_left (by omega)]
    exact strFind_some_min h j h1 h2

/-- A find that fails on the left part of an append, where no occurrence
straddles the boundary, continues into the right part. -/
theorem strFind_append_none {X Y pat : Str} {b : Nat} (hp : pat ≠ [])
    (hb : b ≤ X.length) (h : strFind X pat b = none)
    (hstrad : ∀ k, 0 < k → k < pat.length → X.drop (X.length - k) ≠ pat.take k) :
    strFind (X ++ Y) pat b = (strFind Y pat 0).map (· + X.length) := by
  have hpos := List.length_pos.mpr hp
  have hleft : ∀ j, b ≤ j → j < X.length → matchAt (X ++ Y) pat j = false := by
    intro j h1 h2
    by_cases hin : j + pat.length ≤ X.length
    · rw [matchAt_append_left hin]
      exact strFind_none hp h j h1
    · by_contra hc
      simp only [Bool.not_eq_false] at hc
      have hd := matchAt_decompose hc
      rw [List.drop_append_of_le_length (by omega)] at hd
      have hXlen : (X.drop j).length = X.length - j := by simp
      have hk1 : X.drop j = ((X.drop j ++ Y).take pat.length).take (X.length - j) := by
        rw [List.take_take, Nat.min_eq_left (by omega),
          List.take_append_of_le_length (by omega), List.take_of_length_le (by omega)]
      have hk2 : X.drop j = pat.take (X.length - j) := by
        rw [hk1]
        have : (X.drop j ++ Y).take pat.length = pat := by
          have := matchAt_iff.mp hc
          rw [List.drop_append_of_le_length (by omega)] at this
          exact this
        rw [this]
      have := hstrad (X.length - j) (by omega) (by omega)
      rw [show X.length - (X.length - j) = j by omega] at this
      exact this hk2
  cases hY : strFind Y pat 0 with
  | none =>
    simp only [Option.map_none']
    apply strFind_eq_none_of
    intro j h1
    by_cases h2 : j < X.length
    · exact hleft j h1 h2
    · rw [show j = X.length + (j - X.length) by omega, matchAt_shift, List.drop_left]
      exact strFind_none hp hY (j - X.length) (by omega)
  | some r =>
    simp only [Option.map_some']
    apply strFind_eq_some_of hp
    · rw [show r + X.length = X.length + r by omega, matchAt_shift, List.drop_left]
      exact strFind_some_match hY
    · omega
    · intro j h1 h2
      by_cases h3 : j < X.length
      · exact hleft j h1 h3
      · rw [show j = X.length + (j - X.length) by omega, matchAt_shift, List.drop_left]
        exact strFind_some_min hY (j - X.length) (by omega) (by omega)

/-- Matching inside a window of the base list. -/
theorem matchAt_window {doc pat : Str} {i L j : Nat} (hj : j + pat.length ≤ L) :
    matchAt ((doc.drop i).take L) pat j = matchAt doc pat (i + j) := by
  rw [matchAt_take hj, ← matchAt_shift]

/-- A find in the base list landing inside a window is a find in the window. -/
theorem strFind_window_some {doc pat : Str} {i L a r : Nat} (hp : pat ≠ [])
    (hdoc : strFind doc pat (i + a) = some (i + r)) (hr : r + pat.length ≤ L) :
    strFind ((doc.drop i).take L) pat a = some r := by
  apply strFind_eq_some_of hp
  · rw [matchAt_window hr]; exact strFind_some_match hdoc
  · have := strFind_some_ge hdoc; omega
  · intro j h1 h2
    rw [matchAt_window (by omega)]
    exact strFind_some_min hdoc (i + j) (by omega) (by omega)

/-- If the base list has no occurrence that would fit inside the window, the
window has no occurrence at all. -/
theorem strFind_window_none {doc pat : Str} {i L a : Nat} (hp : pat ≠ [])
    (h : ∀ j, a ≤ j → j + pat.length ≤ L → matchAt doc pat (i + j) = false) :
    strFind ((doc.drop i).take L) pat a = none := by
  apply strFind_eq_none_of
  intro j h1
  by_cases h2 : j + pat.length ≤ L
  · rw [matchAt_window h2]; exact h j h1 h2
  · by_contra hc
    simp only [Bool.not_eq_false] at hc
    have := matchAt_length hp hc
    simp only [List.length_take, List.length_drop] at this
    omega

theorem matchAt_get {s pat : Str} {j k : Nat} (h : matchAt s pat j = true)
    (hk : k < pat.length) : s.get? (j + k) = pat.get? k := by
  have hd := matchAt_decompose h
  have h0 : (s.drop j).get? k = (pat ++ s.drop (j + pat.length)).get? k := by rw [hd]
  rw [List.get?_drop] at h0
  rw [h0, List.get?_append hk]

theorem matchAt_false_of_get_ne {s pat : Str} {j : Nat} (hp : pat ≠ [])
    (h : s.get? j ≠ pat.get? 0) : matchAt s pat j = false := by
  by_contra hc
  simp only [Bool.not_eq_false] at hc
  exact h (matchAt_head hp hc)

theorem matchAt_singleton_iff {s : Str} {c : Char} {j : Nat} :
    matchAt s [c] j = true ↔ s.get? j = some c := by
  constructor
  · intro h
    have := matchAt_head (by simp) h
    simpa using this
  · intro h
    have h2 : (s.drop j).get? 0 = some c := by rw [List.get?_drop, Nat.add_zero]; exact h
    cases hsj : s.drop j with
    | nil => rw [hsj] at h2; simp at h2
    | cons x xs =>
      rw [hsj] at h2
      simp only [List.get?] at h2
      have hx : x = c := by injection h2
      have hd : s.drop j = [c] ++ xs := by rw [hsj, hx]; rfl
      exact matchAt_of_drop_eq hd

theorem strFind_some_le {s pat : Str} {a R : Nat} (hp : pat ≠ [])
    (hm : matchAt s pat R = true) (ha : a ≤ R) :
    ∃ r, strFind s pat a = some r ∧ r ≤ R := by
  have hlen := matchAt_length hp hm
  have hpos := List.length_pos.mpr hp
  obtain ⟨r', hr'⟩ := @findAux_complete s pat a (s.length + 1 - a) R hm ha (by omega)
  refine ⟨r', hr', ?_⟩
  by_contra hgt
  have := findAux_min hr' R ha (by omega)
  rw [this] at hm
  exact absurd hm (by simp)

theorem typeOfTriple_eq {s : Str} {ty : RuleCollectionType}
    (h : typeOfTriple s = some ty) :
    s = ("Exe").toList ∨ s = ("Dll").toList ∨ s = ("Msi").toList ∨
    s = ("Scr").toList ∨ s = ("App").toList := by
  unfold typeOfTriple at h
  split_ifs at h with h1 h2 h3 h4 h5
  · exact Or.inl h1
  · exact Or.inr (Or.inl h2)
  · exact Or.inr (Or.inr (Or.inl h3))
  · exact Or.inr (Or.inr (Or.inr (Or.inl h4)))
  · exact Or.inr (Or.inr (Or.inr (Or.inr h5)))

theorem typeOfTriple_head_ne_slash {s : Str} {ty : RuleCollectionType}
    (h : typeOfTriple s = some ty) : s.get? 0 ≠ some '/' := by
  rcases typeOfTriple_eq h with h1 | h1 | h1 | h1 | h1 <;> rw [h1] <;> decide

theorem typeMark_after_marker {s : Str} {i t : Nat}
    (hm : matchAt s rcStartMark i = true) (ht : matchAt s typeMark t = true)
    (hit : i ≤ t) : i + 16 ≤ t := by
  by_contra hc
  have hk : t - i < 16 := by omega
  have hsh : matchAt s typeMark (i + (t - i)) = true := by
    rw [show i + (t - i) = t by omega]; exact ht
  rw [matchAt_shift] at hsh
  have hd := matchAt_decompose hm
  rw [hd] at hsh
  have hhead := matchAt_head (by decide) hsh
  have hlen : rcStartMark.length = 16 := by decide
  rw [List.get?_append (by omega)] at hhead
  have : ∀ k, k < 16 → rcStartMark.get? k ≠ some 'T' := by decide
  have h2 : typeMark.get? 0 = some 'T' := by decide
  rw [h2] at hhead
  exact this (t - i) hk hhead

/-- Inversion of `findCollectionEnd`. -/
theorem findCollectionEnd_inv {doc : Str} {d e elen : Nat}
    (h : findCollectionEnd doc d = some (e, elen)) :
    (elen = 2 ∧ strFind doc selfCloseMark d = some e ∧
      (strFind doc ltMark d = none ∨
        ∃ l, strFind doc ltMark d = some l ∧ ¬ l < e)) ∨
    (elen = 17 ∧ strFind doc rcEndTag d = some e ∧
      (strFind doc selfCloseMark d = none ∨
        ∃ p l, strFind doc selfCloseMark d = some p ∧
          strFind doc ltMark d = some l ∧ l < p)) := by
  unfold findCollectionEnd at h
  cases hsc : strFind doc selfCloseMark d with
  | none =>
    rw [hsc] at h
    dsimp only at h
    cases het : strFind doc rcEndTag d with
    | none => rw [het] at h; simp at h
    | some e2 =>
      rw [het] at h
      simp only [Option.map_some'] at h
      obtain ⟨he, hl⟩ := Prod.mk.inj (Option.some.inj h)
      subst he
      exact Or.inr ⟨hl.symm.trans (by decide), rfl, Or.inl rfl⟩
  | some p =>
    rw [hsc] at h
    dsimp only at h
    cases hlt : strFind doc ltMark d with
    | none =>
      rw [hlt] at h
      dsimp only at h
      obtain ⟨he, hl⟩ := Prod.mk.inj (Option.some.inj h)
      subst he
      exact Or.inl ⟨hl.symm.trans (by decide), rfl, Or.inl rfl⟩
    | some l =>
      rw [hlt] at h
      dsimp only at h
      by_cases hle : l < p
      · rw [if_pos hle] at h
        cases het : strFind doc rcEndTag d with
        | none => rw [het] at h; simp at h
        | some e2 =>
          rw [het] at h
          simp only [Option.map_some'] at h
          obtain ⟨he, hl⟩ := Prod.mk.inj (Option.some.inj h)
          subst he
          exact Or.inr ⟨hl.symm.trans (by decide), rfl, Or.inr ⟨p, l, rfl, rfl, hle⟩⟩
      · rw [if_neg hle] at h
        obtain ⟨he, hl⟩ := Prod.mk.inj (Option.some.inj h)
        subst he
        exact Or.inl ⟨hl.symm.trans (by decide), rfl, Or.inr ⟨l, rfl, hle⟩⟩

theorem substr_length {s : Str} {pos len : Nat} (h : pos + len ≤ s.length) :
    (substr s pos len).length = len := by
  simp [substr]
  omega

theorem substr_substr {s : Str} {i L k n : Nat} (h : k + n ≤ L) :
    substr (substr s i L) k n = substr s (i + k) n := by
  simp only [substr]
  rw [List.drop_take, List.take_take, List.drop_drop, Nat.min_eq_left (by omega)]

theorem substr_outer {s f suf : Str} {c k n : Nat}
    (h : s.drop c = f ++ suf) (hkn : k + n ≤ f.length) :
    substr s (c + k) n = substr f k n := by
  simp only [substr]
  have h1 : s.drop (c + k) = f.drop k ++ suf := by
    have h2 : s.drop (c + k) = (s.drop c).drop k := by
      rw [List.drop_drop, Nat.add_comm]
    rw [h2, h, List.drop_append_of_le_length (by omega)]
  rw [h1, List.take_append_of_le_length (by simp; omega)]

theorem strFind_window_abs {doc pat : Str} {i L A R : Nat} (hp : pat ≠ [])
    (hdoc : strFind doc pat A = some R) (hA : i ≤ A) (hR : R + pat.length ≤ i + L) :
    strFind ((doc.drop i).take L) pat (A - i) = some (R - i) := by
  have h1 := strFind_some_ge hdoc
  have h2 : strFind doc pat (i + (A - i)) = some (i + (R - i)) := by
    rw [show i + (A - i) = A by omega, show i + (R - i) = R by omega]
    exact hdoc
  exact strFind_window_some hp h2 (by omega)

theorem strFind_window_none_abs {doc pat : Str} {i L A : Nat} (hp : pat ≠ [])
    (hA : i ≤ A)
    (h : ∀ J, A ≤ J → J + pat.length ≤ i + L → matchAt doc pat J = false) :
    strFind ((doc.drop i).take L) pat (A - i) = none := by
  apply strFind_window_none hp
  intro j hj hjL
  have := h (i + j) (by omega) (by omega)
  exact this

theorem getPolicy_setPolicy (acc : RuleCollections) (ty ty' : RuleCollectionType)
    (f : Str) :
    getPolicy (setPolicy acc ty f) ty' = if ty' = ty then f else getPolicy acc ty' := by
  cases ty <;> cases ty' <;> simp [getPolicy, setPolicy]

theorem captureGood {doc : Str} {i t d e elen : Nat} {ty : RuleCollectionType}
    (hi : matchAt doc rcStartMark i = true)
    (ht : strFind doc typeMark i = some t)
    (hd : strFind doc dqMark t = some d)
    (he : findCollectionEnd doc d = some (e, elen))
    (hty : typeOfTriple (substr doc (d + 1) 3) = some ty) :
    GoodFrag (substr doc i (e + elen - i)) ty ∧ i + 16 ≤ e + elen ∧
      e + elen ≤ doc.length := by
  have hrcl : rcStartMark.length = 16 := by decide
  have html : typeMark.length = 4 := by decide
  have hdql : dqMark.length = 1 := by decide
  have hscl : selfCloseMark.length = 2 := by decide
  have hetl : rcEndTag.length = 17 := by decide
  have hltl : ltMark.length = 1 := by decide
  have hit : i ≤ t := strFind_some_ge ht
  have hmt : matchAt doc typeMark t = true := strFind_some_match ht
  have hi16 : i + 16 ≤ t := typeMark_after_marker hi hmt hit
  have htd : t ≤ d := strFind_some_ge hd
  have hmd : matchAt doc dqMark d = true := strFind_some_match hd
  have hgetd : doc.get? d = some '"' := by
    have := matchAt_head (by decide) hmd
    rw [this]; decide
  have hgett : doc.get? t = some 'T' := by
    have := matchAt_head (by decide) hmt
    rw [this]; decide
  have htd1 : t + 1 ≤ d := by
    rcases Nat.eq_or_lt_of_le htd with rfl | h
    · rw [hgetd] at hgett; simp at hgett
    · omega
  rcases findCollectionEnd_inv he with ⟨h2, hsc, hlt⟩ | ⟨h17, het, hscd⟩
  · -- self-closing case: elen = 2
    subst h2
    have hde : d ≤ e := strFind_some_ge hsc
    have hmsc : matchAt doc selfCloseMark e = true := strFind_some_match hsc
    have hgete : doc.get? e = some '/' := by
      have := matchAt_head (by decide) hmsc
      rw [this]; decide
    have hgete1 : doc.get? (e + 1) = some '>' := by
      have := matchAt_get hmsc (show 1 < selfCloseMark.length by decide)
      rw [this]; decide
    have hlen_doc : e + 2 ≤ doc.length := by
      have := strFind_some_len (by decide) hsc
      omega
    have hde1 : d + 1 ≤ e := by
      rcases Nat.eq_or_lt_of_le hde with rfl | h
      · rw [hgetd] at hgete; simp at hgete
      · omega
    have hde2 : d + 2 ≤ e := by
      rcases Nat.eq_or_lt_of_le hde1 with he1 | h
      · exfalso
        apply typeOfTriple_head_ne_slash hty
        have hg : (substr doc (d + 1) 3).get? 0 = doc.get? (d + 1) := by
          simp only [substr]
          rw [List.get?_take (by omega), List.get?_drop, Nat.add_zero]
        rw [hg, he1]
        exact hgete
      · omega
    set L := e + 2 - i with hL
    have hiL : i + L = e + 2 := by omega
    have hfl : (substr doc i L).length = L := substr_length (by omega)
    refine ⟨⟨?_, t - i, d - i, e - i, 2, ?_, ?_, ?_, ?_, ?_, ?_⟩, by omega, by omega⟩
    · show matchAt ((doc.drop i).take L) rcStartMark 0 = true
      rw [matchAt_window (by omega), Nat.add_zero]
      exact hi
    · show strFind ((doc.drop i).take L) typeMark 0 = some (t - i)
      rw [show (0 : Nat) = i - i from by omega]
      exact strFind_window_abs (by decide) ht (by omega) (by omega)
    · show strFind ((doc.drop i).take L) dqMark (t - i) = some (d - i)
      exact strFind_window_abs (by decide) hd (by omega) (by omega)
    · omega
    · rw [show substr (substr doc i L) (d - i + 1) 3 = substr doc (i + (d - i + 1)) 3
        from substr_substr (by omega), show i + (d - i + 1) = d + 1 from by omega]
      exact hty
    · have hfsc : strFind ((doc.drop i).take L) selfCloseMark (d - i) = some (e - i) :=
        strFind_window_abs (by decide) hsc (by omega) (by omega)
      have hflt : strFind ((doc.drop i).take L) ltMark (d - i) = none := by
        apply strFind_window_none_abs (by decide) (by omega)
        intro J hJ hJL
        have hJe : J ≤ e + 1 := by omega
        rcases Nat.lt_trichotomy J e with hJe' | rfl | hJe'
        · rcases hlt with hnone | ⟨l, hsome, hle⟩
          · exact strFind_none (by decide) hnone J hJ
          · exact strFind_some_min hsome J hJ (by omega)
        · apply matchAt_false_of_get_ne (by decide)
          rw [hgete]; decide
        · have : J = e + 1 := by omega
          subst this
          apply matchAt_false_of_get_ne (by decide)
          rw [hgete1]; decide
      show findCollectionEnd ((doc.drop i).take L) (d - i) = some (e - i, 2)
      unfold findCollectionEnd
      rw [hfsc, hflt]
      simp [show selfCloseMark.length = 2 from by decide]
    · omega
  · -- explicit end tag case: elen = 17
    subst h17
    have hde : d ≤ e := strFind_some_ge het
    have hmet : matchAt doc rcEndTag e = true := strFind_some_match het
    have hgete : doc.get? e = some '<' := by
      have := matchAt_head (by decide) hmet
      rw [this]; decide
    have hlen_doc : e + 17 ≤ doc.length := by
      have := strFind_some_len (by decide) het
      omega
    have hde1 : d + 1 ≤ e := by
      rcases Nat.eq_or_lt_of_le hde with rfl | h
      · rw [hgetd] at hgete; simp at hgete
      · omega
    obtain ⟨l, hl, hle'⟩ : ∃ l, strFind doc ltMark d = some l ∧ l ≤ e := by
      have hme : matchAt doc ltMark e = true := matchAt_singleton_iff.mpr hgete
      exact strFind_some_le (by decide) hme hde
    have hld : d ≤ l := strFind_some_ge hl
    set L := e + 17 - i with hL
    have hiL : i + L = e + 17 := by omega
    have hfl : (substr doc i L).length = L := substr_length (by omega)
    refine ⟨⟨?_, t - i, d - i, e - i, 17, ?_, ?_, ?_, ?_, ?_, ?_⟩, by omega, by omega⟩
    · show matchAt ((doc.drop i).take L) rcStartMark 0 = true
      rw [matchAt_window (by omega), Nat.add_zero]
      exact hi
    · show strFind ((doc.drop i).take L) typeMark 0 = some (t - i)
      rw [show (0 : Nat) = i - i from by omega]
      exact strFind_window_abs (by decide) ht (by omega) (by omega)
    · show strFind ((doc.drop i).take L) dqMark (t - i) = some (d - i)
      exact strFind_window_abs (by decide) hd (by omega) (by omega)
    · omega
    · rw [show substr (substr doc i L) (d - i + 1) 3 = substr doc (i + (d - i + 1)) 3
        from substr_substr (by omega), show i + (d - i + 1) = d + 1 from by omega]
      exact hty
    · have hfet : strFind ((doc.drop i).take L) rcEndTag (d - i) = some (e - i) :=
        strFind_window_abs (by decide) het (by omega) (by omega)
      have hflt : strFind ((doc.drop i).take L) ltMark (d - i) = some (l - i) :=
        strFind_window_abs (by decide) hl (by omega) (by omega)
      show findCollectionEnd ((doc.drop i).take L) (d - i) = some (e - i, 17)
      rcases hscd with hnone | ⟨p, l2, hp, hl2, hlp⟩
      · have hfsc : strFind ((doc.drop i).take L) selfCloseMark (d - i) = none := by
          apply strFind_window_none_abs (by decide) (by omega)
          intro J hJ _
          exact strFind_none (by decide) hnone J hJ
        unfold findCollectionEnd
        rw [hfsc, hfet]
        simp [show rcEndTag.length = 17 from by decide]
      · have hl2l : l2 = l := by rw [hl2] at hl; exact Option.some.inj hl
        rw [hl2l] at hlp
        by_cases hp2 : p + 2 ≤ i + L
        · have hfsc : strFind ((doc.drop i).take L) selfCloseMark (d - i) = some (p - i) :=
            strFind_window_abs (by decide) hp (by omega) (by omega)
          unfold findCollectionEnd
          rw [hfsc, hflt]
          have hdp : d ≤ p := strFind_some_ge hp
          dsimp only
          rw [if_pos (show l - i < p - i from by omega), hfet]
          simp [show rcEndTag.length = 17 from by decide]
        · have hfsc : strFind ((doc.drop i).take L) selfCloseMark (d - i) = none := by
            apply strFind_window_none_abs (by decide) (by omega)
            intro J hJ hJL
            exact strFind_some_min hp J hJ (by omega)
          unfold findCollectionEnd
          rw [hfsc, hfet]
          simp [show rcEndTag.length = 17 from by decide]
    · omega

theorem splitScan_slotsGood {doc : Str} :
    ∀ fuel ixRC acc rc, SlotsGood acc → splitScan doc ixRC acc fuel = some rc →
      SlotsGood rc := by
  intro fuel
  induction fuel with
  | zero => intro ixRC acc rc hacc h; simp [splitScan] at h
  | succ n ih =>
    intro ixRC acc rc hacc h
    rw [splitScan] at h
    cases hfind : strFind doc rcStartMark ixRC with
    | none =>
      rw [hfind] at h
      simp only [Option.some.injEq] at h
      subst h
      exact hacc
    | some i =>
      rw [hfind] at h
      dsimp only at h
      cases ht : strFind doc typeMark i with
      | none => rw [ht] at h; simp at h
      | some t =>
        rw [ht] at h
        dsimp only at h
        cases hd : strFind doc dqMark t with
        | none => rw [hd] at h; simp at h
        | some d =>
          rw [hd] at h
          dsimp only at h
          cases hce : findCollectionEnd doc d with
          | none => rw [hce] at h; simp at h
          | some pr =>
            obtain ⟨e, elen⟩ := pr
            rw [hce] at h
            dsimp only at h
            cases hty : typeOfTriple (substr doc (d + 1) 3) with
            | none => rw [hty] at h; simp at h
            | some ty =>
              rw [hty] at h
              dsimp only at h
              apply ih _ _ _ ?_ h
              intro ty' hne
              rw [getPolicy_setPolicy] at hne ⊢
              by_cases hty' : ty' = ty
              · rw [if_pos hty'] at hne ⊢
                subst hty'
                exact (captureGood (strFind_some_match hfind) ht hd hce hty).1
              · rw [if_neg hty'] at hne ⊢
                exact hacc ty' hne

theorem strFind_ctx {doc' f suf pat : Str} {c b : Nat} (hp : pat ≠ [])
    (hdrop : doc'.drop c = f ++ suf) :
    strFind doc' pat (c + b) = (strFind (f ++ suf) pat b).map (· + c) := by
  rw [strFind_drop hp, hdrop]

/-- Re-scanning at a position whose tail starts with a captured fragment
performs exactly one step: it captures that fragment verbatim, records it
under its type, and advances past it. -/
theorem rescanStep {doc' f suf : Str} {cursor c : Nat} {ty : RuleCollectionType}
    {acc : RuleCollections} {n : Nat}
    (hgf : GoodFrag f ty) (hdrop : doc'.drop c = f ++ suf)
    (hfind : strFind doc' rcStartMark cursor = some c) :
    splitScan doc' cursor acc (n + 1) =
      splitScan doc' (c + f.length) (setPolicy acc ty f) n := by
  obtain ⟨hm0, rt, rd, re, elen, hrt, hrd, hrd4, htyp, hfce, hre⟩ := hgf
  have hflen : 16 ≤ f.length := by
    have := matchAt_length (by decide) hm0
    have : rcStartMark.length = 16 := by decide
    omega
  have hT4 : typeMark.length = 4 := by decide
  have hD1 : dqMark.length = 1 := by decide
  have hS2 : selfCloseMark.length = 2 := by decide
  have hE17 : rcEndTag.length = 17 := by decide
  have hL1 : ltMark.length = 1 := by decide
  have hrtrd : rt ≤ rd := strFind_some_ge hrd
  have hrdre : rd ≤ re := by
    rcases findCollectionEnd_inv hfce with ⟨_, hsc, _⟩ | ⟨_, het, _⟩
    · exact strFind_some_ge hsc
    · exact strFind_some_ge het
  -- (B1) the Type attribute find
  have hB1 : strFind doc' typeMark c = some (c + rt) := by
    have h0 := @strFind_ctx doc' f suf typeMark c 0 (by decide) hdrop
    rw [Nat.add_zero] at h0
    rw [h0, strFind_append_found (by decide) hrt (by omega)]
    simp [Nat.add_comm]
  -- (B2) the double-quote find
  have hB2 : strFind doc' dqMark (c + rt) = some (c + rd) := by
    have h0 := @strFind_ctx doc' f suf dqMark c rt (by decide) hdrop
    rw [h0, strFind_append_found (by decide) hrd (by omega)]
    simp [Nat.add_comm]
  -- (B3) the type triple
  have hB3 : typeOfTriple (substr doc' (c + rd + 1) 3) = some ty := by
    rw [show c + rd + 1 = c + (rd + 1) from by omega,
      substr_outer hdrop (by omega)]
    exact htyp
  -- (B4) the end detection
  have hB4 : findCollectionEnd doc' (c + rd) = some (c + re, elen) := by
    have hsc0 := @strFind_ctx doc' f suf selfCloseMark c rd (by decide) hdrop
    have hlt0 := @strFind_ctx doc' f suf ltMark c rd (by decide) hdrop
    have het0 := @strFind_ctx doc' f suf rcEndTag c rd (by decide) hdrop
    rcases findCollectionEnd_inv hfce with ⟨h2, hfsc, hfltd⟩ | ⟨h17, hfet, hfscd⟩
    · -- fragment ends with "/>"
      subst h2
      have hmsc : matchAt f selfCloseMark re = true := strFind_some_match hfsc
      have hgre : f.get? re = some '/' := by
        have := matchAt_head (by decide) hmsc; rw [this]; decide
      have hgre1 : f.get? (re + 1) = some '>' := by
        have := matchAt_get hmsc (show 1 < selfCloseMark.length by decide)
        rw [this]; decide
      have hfltn : strFind f ltMark rd = none := by
        rcases hfltd with hn | ⟨l, hsl, hnl⟩
        · exact hn
        · exfalso
          have hml : matchAt f ltMark l = true := strFind_some_match hsl
          have hll : l + 1 ≤ f.length := by
            have := matchAt_length (by decide) hml
            have : ltMark.length = 1 := by decide
            omega
          have hgl : f.get? l = some '<' := matchAt_singleton_iff.mp hml
          rcases Nat.eq_or_lt_of_le (show l ≤ re + 1 from by omega) with rfl | hl2
          · rw [hgre1] at hgl; simp at hgl
          · have : l = re := by omega
            subst this
            rw [hgre] at hgl; simp at hgl
      have hscD : strFind doc' selfCloseMark (c + rd) = some (re + c) := by
        rw [hsc0, strFind_append_found (by decide) hfsc (by omega)]
        rfl
      have hltD : strFind doc' ltMark (c + rd) =
          ((strFind suf ltMark 0).map (· + f.length)).map (· + c) := by
        rw [hlt0, strFind_append_none (by decide) (by omega) hfltn
          (by intro k hk1 hk2; omega)]
      unfold findCollectionEnd
      rw [hscD]
      cases hsuf : strFind suf ltMark 0 with
      | none =>
        rw [hsuf] at hltD
        simp only [Option.map_none'] at hltD
        rw [hltD]
        dsimp only
        rw [show re + c = c + re from by omega]
        simp [show selfCloseMark.length = 2 from by decide]
      | some q =>
        rw [hsuf] at hltD
        simp only [Option.map_some'] at hltD
        rw [hltD]
        dsimp only
        rw [if_neg (show ¬ q + f.length + c < re + c from by omega)]
        rw [show re + c = c + re from by omega]
        simp [show selfCloseMark.length = 2 from by decide]
    · -- fragment ends with "</RuleCollection>"
      subst h17
      have hmet : matchAt f rcEndTag re = true := strFind_some_match hfet
      have hgre : f.get? re = some '<' := by
        have := matchAt_head (by decide) hmet; rw [this]; decide
      obtain ⟨l, hfl, hlle⟩ : ∃ l, strFind f ltMark rd = some l ∧ l ≤ re :=
        strFind_some_le (by decide) (matchAt_singleton_iff.mpr hgre) hrdre
      have hetD : strFind doc' rcEndTag (c + rd) = some (re + c) := by
        rw [het0, strFind_append_found (by decide) hfet (by omega)]
        rfl
      have hltD : strFind doc' ltMark (c + rd) = some (l + c) := by
        rw [hlt0, strFind_append_found (by decide) hfl (by omega)]
        rfl
      have hdre : f.drop re = rcEndTag := by
        have hdec := matchAt_decompose hmet
        rw [show re + rcEndTag.length = f.length from by omega] at hdec
        rw [List.drop_length, List.append_nil] at hdec
        exact hdec
      rcases hfscd with hscn | ⟨p, l2, hfsp, hfl2, hl2p⟩
      · have hscD : strFind doc' selfCloseMark (c + rd) =
            ((strFind suf selfCloseMark 0).map (· + f.length)).map (· + c) := by
          rw [hsc0, strFind_append_none (by decide) (by omega) hscn ?_]
          intro k hk1 hk2
          have hk : k = 1 := by omega
          subst hk
          rw [show f.length - 1 = re + 16 from by omega, ← List.drop_drop 16 re f, hdre]
          decide
        unfold findCollectionEnd
        cases hsuf : strFind suf selfCloseMark 0 with
        | none =>
          rw [hsuf] at hscD
          simp only [Option.map_none'] at hscD
          rw [hscD]
          dsimp only
          rw [hetD, show re + c = c + re from by omega]
          simp [show rcEndTag.length = 17 from by decide]
        | some q =>
          rw [hsuf] at hscD
          simp only [Option.map_some'] at hscD
          rw [hscD, hltD]
          dsimp only
          rw [if_pos (show l + c < q + f.length + c from by omega)]
          rw [hetD, show re + c = c + re from by omega]
          simp [show rcEndTag.length = 17 from by decide]
      · have hl2l : l2 = l := by rw [hfl2] at hfl; exact Option.some.inj hfl
        subst hl2l
        have hp2 : p + 2 ≤ f.length := by
          have := matchAt_length (by decide) (strFind_some_match hfsp)
          omega
        have hscD : strFind doc' selfCloseMark (c + rd) = some (p + c) := by
          rw [hsc0, strFind_append_found (by decide) hfsp (by omega)]
          rfl
        unfold findCollectionEnd
        rw [hscD, hltD]
        dsimp only
        rw [if_pos (show l2 + c < p + c from by omega)]
        rw [hetD, show re + c = c + re from by omega]
        simp [show rcEndTag.length = 17 from by decide]
  -- assemble the step
  rw [splitScan, hfind]
  dsimp only
  rw [hB1]
  dsimp only
  rw [hB2]
  dsimp only
  rw [hB4]
  dsimp only
  rw [hB3]
  dsimp only
  rw [show c + re + elen - c = f.length from by omega]
  rw [show substr doc' c f.length = f from by
    (rw [substr, hdrop]
     exact List.take_left f suf)]

theorem pskip_nl : Pskip nlStr := ⟨by decide, by decide⟩

theorem pskip_preamble : Pskip policyDocPreamble := ⟨by decide, by decide⟩

theorem rescanJoin {doc' : Str} :
    ∀ (fs : List (RuleCollectionType × Str)) (p : Str) (cursor : Nat)
      (acc : RuleCollections) (fuel : Nat),
      (∀ x ∈ fs, GoodFrag x.2 x.1) → Pskip p →
      doc'.drop cursor = p ++ joinEnd fs → fs.length + 1 ≤ fuel →
      splitScan doc' cursor acc fuel = some (applyFrags acc fs) := by
  intro fs
  induction fs with
  | nil =>
    intro p cursor acc fuel hgood hps hdrop hfuel
    obtain ⟨g, rfl⟩ : ∃ g, fuel = g + 1 := ⟨fuel - 1, by omega⟩
    rw [splitScan]
    have hm : strFind doc' rcStartMark cursor = none := by
      have h0 := @strFind_ctx doc' p (joinEnd []) rcStartMark cursor 0 (by decide) hdrop
      rw [Nat.add_zero] at h0
      rw [h0, strFind_append_none (by decide) (by omega) hps.1 ?_]
      · rw [show joinEnd [] = policyRootCloseTag from rfl,
          show strFind policyRootCloseTag rcStartMark 0 = none from by decide]
        rfl
      · intro k hk1 hk2
        have h16 : rcStartMark.length = 16 := by decide
        exact hps.2 k (by omega) hk1
    rw [hm]
    rfl
  | cons hd rest ih =>
    obtain ⟨ty, f⟩ := hd
    intro p cursor acc fuel hgood hps hdrop hfuel
    obtain ⟨g, rfl⟩ : ∃ g, fuel = g + 1 := ⟨fuel - 1, by omega⟩
    have hgf : GoodFrag f ty := hgood (ty, f) (by simp)
    have hflen : 16 ≤ f.length := by
      have := matchAt_length (by decide) hgf.1
      have h16 : rcStartMark.length = 16 := by decide
      omega
    have hf0 : strFind f rcStartMark 0 = some 0 :=
      strFind_eq_some_of (by decide) hgf.1 (Nat.le_refl 0)
        (fun j h1 h2 => absurd h2 (by omega))
    have hjoin : joinEnd ((ty, f) :: rest) = f ++ (nlStr ++ joinEnd rest) := rfl
    have hmfind : strFind doc' rcStartMark cursor = some (cursor + p.length) := by
      have h0 := @strFind_ctx doc' p (joinEnd ((ty, f) :: rest)) rcStartMark cursor 0 (by decide) hdrop
      rw [Nat.add_zero] at h0
      rw [h0, strFind_append_none (by decide) (by omega) hps.1 ?_]
      · rw [hjoin, strFind_append_found (by decide) hf0
          (by
            have h16 : rcStartMark.length = 16 := by decide
            omega)]
        simp [Nat.add_comm]
      · intro k hk1 hk2
        have h16 : rcStartMark.length = 16 := by decide
        exact hps.2 k (by omega) hk1
    have hdropc : doc'.drop (cursor + p.length) = f ++ (nlStr ++ joinEnd rest) := by
      have h1 : doc'.drop (cursor + p.length) = (doc'.drop cursor).drop p.length := by
        rw [List.drop_drop]
      rw [h1, hdrop, hjoin, List.drop_left]
    rw [rescanStep hgf hdropc hmfind]
    have hdropc2 : doc'.drop (cursor + p.length + f.length) = nlStr ++ joinEnd rest := by
      have h1 : doc'.drop (cursor + p.length + f.length) =
          (doc'.drop (cursor + p.length)).drop f.length := by
        rw [List.drop_drop]
      rw [h1, hdropc, List.drop_left]
    have hrest : ∀ x ∈ rest, GoodFrag x.2 x.1 := fun x hx => hgood x (by simp [hx])
    have hstep := ih nlStr (cursor + p.length + f.length) (setPolicy acc ty f) g hrest
      pskip_nl hdropc2 (by simp at hfuel; omega)
    rw [hstep]
    rfl

theorem assemble_eq_join (rc : RuleCollections) :
    AssemblePolicyDocument rc = policyDocPreamble ++ joinEnd (fragsList rc) := by
  by_cases h1 : rc.sExePolicy = [] <;> by_cases h2 : rc.sDllPolicy = [] <;>
    by_cases h3 : rc.sMsiPolicy = [] <;> by_cases h4 : rc.sScriptPolicy = [] <;>
    by_cases h5 : rc.sAppxPolicy = [] <;>
    simp [AssemblePolicyDocument, policyDocPreamble, fragmentBlock, fragsList,
      joinEnd, h1, h2, h3, h4, h5, List.append_assoc]

theorem applyFrags_fragsList (rc : RuleCollections) :
    applyFrags emptyCollections (fragsList rc) = rc := by
  obtain ⟨e, d, m, s, a⟩ := rc
  by_cases h1 : e = [] <;> by_cases h2 : d = [] <;> by_cases h3 : m = [] <;>
    by_cases h4 : s = [] <;> by_cases h5 : a = [] <;>
    simp [fragsList, applyFrags, setPolicy, emptyCollections, h1, h2, h3, h4, h5]

theorem mem_fragsList {rc : RuleCollections} {x : RuleCollectionType × Str}
    (hx : x ∈ fragsList rc) : getPolicy rc x.1 = x.2 ∧ x.2 ≠ [] := by
  unfold fragsList at hx
  simp only [List.mem_append] at hx
  rcases hx with ((((h | h) | h) | h) | h) <;>
    [skip; skip; skip; skip; skip] <;> first
  | (by_cases hc : rc.sExePolicy = []
     · rw [if_pos hc] at h; simp at h
     · rw [if_neg hc] at h
       simp only [List.mem_singleton] at h
       subst h
       exact ⟨rfl, hc⟩)
  | (by_cases hc : rc.sDllPolicy = []
     · rw [if_pos hc] at h; simp at h
     · rw [if_neg hc] at h
       simp only [List.mem_singleton] at h
       subst h
       exact ⟨rfl, hc⟩)
  | (by_cases hc : rc.sMsiPolicy = []
     · rw [if_pos hc] at h; simp at h
     · rw [if_neg hc] at h
       simp only [List.mem_singleton] at h
       subst h
       exact ⟨rfl, hc⟩)
  | (by_cases hc : rc.sScriptPolicy = []
     · rw [if_pos hc] at h; simp at h
     · rw [if_neg hc] at h
       simp only [List.mem_singleton] at h
       subst h
       exact ⟨rfl, hc⟩)
  | (by_cases hc : rc.sAppxPolicy = []
     · rw [if_pos hc] at h; simp at h
     · rw [if_neg hc] at h
       simp only [List.mem_singleton] at h
       subst h
       exact ⟨rfl, hc⟩)

theorem fragsList_good {rc : RuleCollections} (hsg : SlotsGood rc) :
    ∀ x ∈ fragsList rc, GoodFrag x.2 x.1 := by
  intro x hx
  obtain ⟨hmem, hne⟩ := mem_fragsList hx
  have := hsg x.1 (by rw [hmem]; exact hne)
  rw [hmem] at this
  exact this

theorem fragsList_length (rc : RuleCollections) : (fragsList rc).length ≤ 5 := by
  unfold fragsList
  split_ifs <;> simp

theorem parse_assemble_roundTrip {doc : Str} {rc : RuleCollections}
    (h : ParseRuleCollections doc = some rc) :
    ParseRuleCollections (AssemblePolicyDocument rc) = some rc := by
  have hsg : SlotsGood rc := by
    unfold ParseRuleCollections at h
    cases hroot : strFind doc policyRootStartMark 0 with
    | none => rw [hroot] at h; simp at h
    | some r =>
      rw [hroot] at h
      refine splitScan_slotsGood _ _ _ _ ?_ h
      intro ty hne
      exact absurd (by cases ty <;> rfl) hne
  have hassem := assemble_eq_join rc
  unfold ParseRuleCollections
  have hroot' : strFind (AssemblePolicyDocument rc) policyRootStartMark 0 = some 39 := by
    rw [hassem]
    have hpre : strFind policyDocPreamble policyRootStartMark 0 = some 39 := by decide
    have : policyDocPreamble ++ joinEnd (fragsList rc) =
        policyDocPreamble ++ joinEnd (fragsList rc) := rfl
    exact strFind_append_found (by decide) hpre (by decide)
  rw [hroot']
  dsimp only
  have hlen5 := fragsList_length rc
  have hlenA : 69 ≤ (AssemblePolicyDocument rc).length := by
    rw [hassem, List.length_append]
    have hp : policyDocPreamble.length = 69 := by decide
    omega
  have hscan := @rescanJoin (AssemblePolicyDocument rc) (fragsList rc)
    policyDocPreamble 0 emptyCollections
    ((AssemblePolicyDocument rc).length + 1) (fragsList_good hsg) pskip_preamble
    (by rw [List.drop_zero, hassem]) (by omega)
  rw [hscan, applyFrags_fragsList]

/-- A rule scan that captures a span without `Id` or its quote delimiters
makes the extraction loop fail, whatever rules were accumulated before. -/
theorem rulesScanBad_parseRulesLoop_false :
    ∀ (fuel : Nat) (sXml sStart sEnd : Str) (ix : Nat) (acc : List RuleInfo),
      rulesScanHitsBadSpan sXml sStart sEnd ix fuel = true →
      (parseRulesLoop sXml sStart sEnd ix acc fuel).1 = false := by
  intro fuel
  induction fuel with
  | zero => intro sXml sStart sEnd ix acc h; simp [rulesScanHitsBadSpan] at h
  | succ n ih =>
    intro sXml sStart sEnd ix acc h
    rw [rulesScanHitsBadSpan] at h
    rw [parseRulesLoop]
    cases h1 : strFind sXml sStart ix with
    | none => rw [h1] at h; simp at h
    | some i =>
      rw [h1] at h
      dsimp only at h ⊢
      cases h2 : strFind sXml sEnd i with
      | none => rw [h2] at h
      | some j =>
        rw [h2] at h
        dsimp only at h ⊢
        cases h3 : strFind sXml gtMark j with
        | none => rw [h3] at h
        | some k =>
          rw [h3] at h
          dsimp only at h ⊢
          cases h4 : strFind (substr sXml i (k + 1 - i)) idMark 0 with
          | none => rfl
          | some ixId =>
            rw [h4] at h
            dsimp only at h ⊢
            cases h5 : strFind (substr sXml i (k + 1 - i)) dqMark ixId with
            | none => rfl
            | some q0 =>
              rw [h5] at h
              dsimp only at h ⊢
              cases h6 : strFind (substr sXml i (k + 1 - i)) dqMark (q0 + 1) with
              | none => rfl
              | some q1 =>
                rw [h6] at h
                dsimp only at h ⊢
                exact ih sXml sStart sEnd _ _ h

/-- A scan that reaches an unknown type discriminator makes the whole split
fail. -/
theorem scanBadType_splitScan_none :
    ∀ (fuel : Nat) (doc : Str) (ixRC : Nat) (acc : RuleCollections),
      scanHitsBadType doc ixRC fuel = true →
      splitScan doc ixRC acc fuel = none := by
  intro fuel
  induction fuel with
  | zero => intro doc ixRC acc h; simp [scanHitsBadType] at h
  | succ n ih =>
    intro doc ixRC acc h
    rw [scanHitsBadType] at h
    rw [splitScan]
    cases h1 : strFind doc rcStartMark ixRC with
    | none => rw [h1] at h; simp at h
    | some i =>
      rw [h1] at h
      dsimp only at h ⊢
      cases h2 : strFind doc typeMark i with
      | none => rw [h2] at h
      | some t =>
        rw [h2] at h
        dsimp only at h ⊢
        cases h3 : strFind doc dqMark t with
        | none => rw [h3] at h
        | some d =>
          rw [h3] at h
          dsimp only at h ⊢
          cases h4 : findCollectionEnd doc d with
          | none => rw [h4] at h
          | some pr =>
            obtain ⟨e, elen⟩ := pr
            rw [h4] at h
            dsimp only at h ⊢
            cases h5 : typeOfTriple (substr doc (d + 1) 3) with
            | none => rfl
            | some ty =>
              rw [h5] at h
              dsimp only at h ⊢
              exact ih doc _ _ h

/-- All-sharing-violation retry loop: runs to exhaustion. -/
theorem saveRetryLoop_all (save : Nat → Nat) :
    ∀ (rem attempt : Nat),
      (∀ i, i < attempt + rem → save i = hrSharingViolation) → 0 < rem →
      saveRetryLoop save attempt hrSharingViolation rem =
        (hrSharingViolation, attempt + rem) := by
  intro rem
  induction rem with
  | zero => intro attempt h hpos; omega
  | succ r ih =>
    intro attempt h hpos
    rw [saveRetryLoop]
    rw [h attempt (by omega), if_pos rfl]
    cases hr : r with
    | zero => rw [saveRetryLoop]
    | succ r' =>
      rw [← hr]
      have := ih (attempt + 1) (fun i hi => h i (by omega)) (by omega)
      rw [this]
      congr 1
      omega

/-- The retry loop stops and surfaces the first non-sharing-violation
result. -/
theorem saveRetryLoop_stop (save : Nat → Nat) :
    ∀ (rem attempt k : Nat), attempt ≤ k → k < attempt + rem →
      (∀ j, attempt ≤ j → j < k → save j = hrSharingViolation) →
      save k ≠ hrSharingViolation →
      saveRetryLoop save attempt hrSharingViolation rem = (save k, k + 1) := by
  intro rem
  induction rem with
  | zero => intro attempt k h1 h2; omega
  | succ r ih =>
    intro attempt k h1 h2 hmin hk
    rw [saveRetryLoop]
    rcases Nat.eq_or_lt_of_le h1 with rfl | hlt
    · rw [if_neg hk]
    · rw [hmin attempt (Nat.le_refl _) hlt, if_pos rfl]
      exact ih (attempt + 1) k hlt (by omega) (fun j hj1 hj2 => hmin j (by omega) hj2) hk

/-- When the spec's self-closing condition holds, `findCollectionEnd` uses the
`"/>"` marker. -/
theorem findCollectionEnd_spec_self (doc : Str) (d : Nat)
    (h : specSelfClosing doc d = true) :
    findCollectionEnd doc d = (strFind doc selfCloseMark d).map (fun e => (e, 2)) := by
  unfold specSelfClosing at h
  cases hsc : strFind doc selfCloseMark d with
  | none => rw [hsc] at h; simp at h
  | some e =>
    rw [hsc] at h
    dsimp only at h
    unfold findCollectionEnd
    rw [hsc]
    cases hlt : strFind doc ltMark d with
    | none =>
      simp [show selfCloseMark.length = 2 from by decide]
    | some l =>
      rw [hlt] at h
      dsimp only at h ⊢
      rw [if_neg (by simpa using h)]
      simp [show selfCloseMark.length = 2 from by decide]

/-- When the spec's self-closing condition fails, `findCollectionEnd` falls
back to the explicit end tag. -/
theorem findCollectionEnd_spec_fallback (doc : Str) (d : Nat)
    (h : specSelfClosing doc d = false) :
    findCollectionEnd doc d = (strFind doc rcEndTag d).map (fun e => (e, 17)) := by
  unfold specSelfClosing at h
  cases hsc : strFind doc selfCloseMark d with
  | none =>
    unfold findCollectionEnd
    rw [hsc]
    simp [show rcEndTag.length = 17 from by decide]
  | some e =>
    rw [hsc] at h
    dsimp only at h
    unfold findCollectionEnd
    rw [hsc]
    cases hlt : strFind doc ltMark d with
    | none => rw [hlt] at h; simp at h
    | some l =>
      rw [hlt] at h
      dsimp only at h ⊢
      rw [if_pos (by simpa using h)]
      simp [show rcEndTag.length = 17 from by decide]

theorem getLastD_cons (a : Str) (l : List Str) (d : Str) :
    ((a :: l).getLast?).getD d = (l.getLast?).getD a := by
  cases l with
  | nil => rfl
  | cons b t =>
    cases hg : (b :: t).getLast? with
    | none => simp at hg
    | some x =>
      rw [List.getLast?_cons_cons, hg]
      rfl

theorem lastCapture_cons (ty ty0 : RuleCollectionType) (f0 prev : Str)
    (tr : List (RuleCollectionType × Str)) :
    (((((ty0, f0) :: tr).filter (fun x => decide (x.1 = ty))).map
        Prod.snd).getLast?).getD prev =
      (((tr.filter (fun x => decide (x.1 = ty))).map Prod.snd).getLast?).getD
        (if ty = ty0 then f0 else prev) := by
  by_cases h : ty0 = ty
  · subst h
    rw [if_pos rfl]
    have hf : (((ty0, f0) :: tr).filter (fun x => decide (x.1 = ty0))) =
        (ty0, f0) :: tr.filter (fun x => decide (x.1 = ty0)) := by
      simp [List.filter_cons]
    rw [hf, List.map_cons]
    exact getLastD_cons _ _ _
  · have hf : (((ty0, f0) :: tr).filter (fun x => decide (x.1 = ty))) =
        tr.filter (fun x => decide (x.1 = ty)) := by
      simp [List.filter_cons, h]
    rw [hf, if_neg (fun hh => h hh.symm)]

theorem splitScan_trace {doc : Str} :
    ∀ fuel ixRC acc rc, splitScan doc ixRC acc fuel = some rc →
      ∃ tr, scanTrace doc ixRC fuel = some tr ∧
        ∀ ty, getPolicy rc ty =
          (((tr.filter (fun x => decide (x.1 = ty))).map Prod.snd).getLast?).getD
            (getPolicy acc ty) := by
  intro fuel
  induction fuel with
  | zero => intro ixRC acc rc h; simp [splitScan] at h
  | succ n ih =>
    intro ixRC acc rc h
    rw [splitScan] at h
    cases hfind : strFind doc rcStartMark ixRC with
    | none =>
      rw [hfind] at h
      simp only [Option.some.injEq] at h
      subst h
      refine ⟨[], ?_, fun ty => ?_⟩
      · rw [scanTrace, hfind]
      · simp
    | some i =>
      rw [hfind] at h
      dsimp only at h
      cases ht : strFind doc typeMark i with
      | none => rw [ht] at h; simp at h
      | some t =>
        rw [ht] at h
        dsimp only at h
        cases hd : strFind doc dqMark t with
        | none => rw [hd] at h; simp at h
        | some d =>
          rw [hd] at h
          dsimp only at h
          cases hce : findCollectionEnd doc d with
          | none => rw [hce] at h; simp at h
          | some pr =>
            obtain ⟨e, elen⟩ := pr
            rw [hce] at h
            dsimp only at h
            cases hty : typeOfTriple (substr doc (d + 1) 3) with
            | none => rw [hty] at h; simp at h
            | some ty0 =>
              rw [hty] at h
              dsimp only at h
              obtain ⟨tr, htr, hslot⟩ := ih _ _ _ h
              refine ⟨(ty0, substr doc i (e + elen - i)) :: tr, ?_, fun ty => ?_⟩
              · rw [scanTrace, hfind]
                dsimp only
                rw [ht]
                dsimp only
                rw [hd]
                dsimp only
                rw [hce]
                dsimp only
                rw [hty]
                dsimp only
                rw [htr]
                rfl
              · rw [hslot ty, getPolicy_setPolicy]
                exact (lastCapture_cons ty ty0 (substr doc i (e + elen - i))
                  (getPolicy acc ty) tr).symm

theorem cspAdd_lookup :
    ∀ (m : List (Str × Str)) (n0 p0 name : Str),
      assocLookup name (cspAddPolicyInstance m n0 p0) =
        if n0 = name then some (((assocLookup name m).getD []) ++ (p0 ++ nlStr))
        else assocLookup name m := by
  intro m
  induction m with
  | nil =>
    intro n0 p0 name
    by_cases h : n0 = name
    · simp [cspAddPolicyInstance, assocLookup, h]
    · simp [cspAddPolicyInstance, assocLookup, h]
  | cons hd tl ih =>
    obtain ⟨n, p⟩ := hd
    intro n0 p0 name
    by_cases h1 : n = n0
    · subst h1
      by_cases h2 : n = name
      · simp [cspAddPolicyInstance, assocLookup, h2]
      · simp [cspAddPolicyInstance, assocLookup, h2]
    · by_cases h2 : n = name
      · subst h2
        have h3 : n0 ≠ n := fun hh => h1 hh.symm
        simp [cspAddPolicyInstance, assocLookup, h1, h3]
      · simp [cspAddPolicyInstance, assocLookup, h1, h2, ih]

theorem gpp_lookup_some :
    ∀ (insts m : List (Str × Str)) (name p : Str),
      assocLookup name m = some p →
      assocLookup name
          (List.foldl (fun acc i => cspAddPolicyInstance acc i.1 i.2) m insts) =
        some (p ++ nlJoined name insts) := by
  intro insts
  induction insts with
  | nil =>
    intro m name p hm
    simpa [nlJoined] using hm
  | cons hd tl ih =>
    obtain ⟨n0, p0⟩ := hd
    intro m name p hm
    rw [List.foldl_cons]
    dsimp only
    by_cases h : n0 = name
    · have hm2 : assocLookup name (cspAddPolicyInstance m n0 p0) =
          some (p ++ (p0 ++ nlStr)) := by
        rw [cspAdd_lookup, if_pos h, hm]
        rfl
      have hj : nlJoined name ((n0, p0) :: tl) = (p0 ++ nlStr) ++ nlJoined name tl := by
        simp [nlJoined, List.filter_cons, h]
      rw [ih _ _ _ hm2, hj]
      simp [List.append_assoc]
    · have hm2 : assocLookup name (cspAddPolicyInstance m n0 p0) = some p := by
        rw [cspAdd_lookup, if_neg h, hm]
      have hj : nlJoined name ((n0, p0) :: tl) = nlJoined name tl := by
        simp [nlJoined, List.filter_cons, h]
      rw [ih _ _ _ hm2, hj]

theorem gpp_lookup_none :
    ∀ (insts m : List (Str × Str)) (name : Str),
      assocLookup name m = none →
      assocLookup name
          (List.foldl (fun acc i => cspAddPolicyInstance acc i.1 i.2) m insts) =
        (if insts.any (fun i => decide (i.1 = name)) then
          some (nlJoined name insts) else none) := by
  intro insts
  induction insts with
  | nil =>
    intro m name hm
    simpa using hm
  | cons hd tl ih =>
    obtain ⟨n0, p0⟩ := hd
    intro m name hm
    rw [List.foldl_cons]
    dsimp only
    by_cases h : n0 = name
    · have hm2 : assocLookup name (cspAddPolicyInstance m n0 p0) =
          some ([] ++ (p0 ++ nlStr)) := by
        rw [cspAdd_lookup, if_pos h, hm]
        rfl
      have hj : nlJoined name ((n0, p0) :: tl) = (p0 ++ nlStr) ++ nlJoined name tl := by
        simp [nlJoined, List.filter_cons, h]
      have ha : (((n0, p0) :: tl).any (fun i => decide (i.1 = name))) = true := by
        simp [List.any_cons, h]
      rw [gpp_lookup_some tl _ _ _ hm2]
      simp [hj, ha]
    · have hm2 : assocLookup name (cspAddPolicyInstance m n0 p0) = none := by
        rw [cspAdd_lookup, if_neg h, hm]
      have hj : nlJoined name ((n0, p0) :: tl) = nlJoined name tl := by
        simp [nlJoined, List.filter_cons, h]
      have ha : (((n0, p0) :: tl).any (fun i => decide (i.1 = name))) =
          (tl.any (fun i => decide (i.1 = name))) := by
        simp [List.any_cons, h]
      rw [ih _ _ hm2, hj, ha]

/-- Claim C1 (confirmed). Round-trip law: whenever `ParseRuleCollections`
succeeds on a policy document, assembling the five returned fragments into one
document (XML declaration line, root start tag with `Version="1"`, each
non-empty fragment in the fixed Exe, Dll, Msi, Script, Appx order separated by
line breaks, root end tag) and re-splitting yields fragments whose
`ParseRuleCollection` rule lists are identical to those of the fragments of
the original split — indeed the re-split returns the very same fragments. -/
theorem claim_C1_round_trip (doc : Str) (rc : RuleCollections)
    (h : ParseRuleCollections doc = some rc) :
    ∃ rc', ParseRuleCollections (AssemblePolicyDocument rc) = some rc' ∧
      ∀ ty, getPolicy rc' ty = getPolicy rc ty ∧
        (ParseRuleCollection (getPolicy rc' ty)).2.2.2 =
          (ParseRuleCollection (getPolicy rc ty)).2.2.2 :=
  ⟨rc, parse_assemble_roundTrip h, fun _ => ⟨rfl, rfl⟩⟩

/-- Witness for claim C1 at a concrete one-collection document. -/
theorem claim_C1_round_trip_witness :
    ParseRuleCollections docC1W = some rcC1W ∧
    ∃ rc', ParseRuleCollections (AssemblePolicyDocument rcC1W) = some rc' ∧
      ∀ ty, getPolicy rc' ty = getPolicy rcC1W ty ∧
        (ParseRuleCollection (getPolicy rc' ty)).2.2.2 =
          (ParseRuleCollection (getPolicy rcC1W ty)).2.2.2 :=
  ⟨by decide, claim_C1_round_trip docC1W rcC1W (by decide)⟩

/-- Claim C2 (counterexample). On a document with two Exe rule collections,
`ParseRuleCollections` returns the second occurrence alone as the Exe
fragment: the later occurrence replaces, rather than appends to, the earlier
one and the fragment is not the line-break-separated concatenation. -/
theorem claim_C2_counterexample :
    ParseRuleCollections docC2X = some ⟨fragC2b, [], [], [], []⟩ ∧
    fragC2b ≠ fragC2a ++ (nlStr ++ fragC2b) :=
  ⟨by decide, by decide⟩

/-- Claim C2 (amended). In `ParseRuleCollections` every captured fragment
overwrites the slot selected by its type discriminator, so after any
successful split every slot holds the last captured fragment of its type:
earlier same-type occurrences are replaced, not appended. The
append-with-line-break merge holds only for `GetPolicyProperties`, where for
every instance list and every policy name the entry under that name is
exactly the in-order concatenation, over the instances bearing the name, of
the instance markup followed by a line break. -/
theorem claim_C2_amended :
    (∀ doc rc, ParseRuleCollections doc = some rc →
      ∃ tr, scanTrace doc 0 (doc.length + 1) = some tr ∧
        ∀ ty, getPolicy rc ty =
          (((tr.filter (fun x => decide (x.1 = ty))).map Prod.snd).getLast?).getD []) ∧
    (∀ instances name,
      assocLookup name (GetPolicyProperties instances) =
        if instances.any (fun i => decide (i.1 = name)) then
          some (nlJoined name instances)
        else none) := by
  constructor
  · intro doc rc h
    unfold ParseRuleCollections at h
    cases hroot : strFind doc policyRootStartMark 0 with
    | none => rw [hroot] at h; simp at h
    | some r =>
      rw [hroot] at h
      dsimp only at h
      obtain ⟨tr, htr, hslot⟩ := splitScan_trace _ _ _ _ h
      refine ⟨tr, htr, fun ty => ?_⟩
      rw [hslot ty]
      have he : getPolicy emptyCollections ty = [] := by cases ty <;> rfl
      rw [he]
  · intro instances name
    unfold GetPolicyProperties
    exact gpp_lookup_none instances [] name rfl

/-- Witness for the amended claim C2: the two-Exe-collection document, whose
Exe slot is the second fragment alone, and a two-instance group whose entry
is the line-break-separated concatenation. -/
theorem claim_C2_amended_witness :
    (∃ tr, scanTrace docC2X 0 (docC2X.length + 1) = some tr ∧
      ∀ ty, getPolicy (⟨fragC2b, [], [], [], []⟩ : RuleCollections) ty =
        (((tr.filter (fun x => decide (x.1 = ty))).map Prod.snd).getLast?).getD []) ∧
    assocLookup (("Exe").toList)
        (GetPolicyProperties
          [((("Exe").toList), fragC2a), ((("Exe").toList), fragC2b)]) =
      some ((fragC2a ++ nlStr) ++ ((fragC2b ++ nlStr) ++ [])) :=
  ⟨claim_C2_amended.1 docC2X ⟨fragC2b, [], [], [], []⟩ (by decide),
   (claim_C2_amended.2 [((("Exe").toList), fragC2a), ((("Exe").toList), fragC2b)]
      (("Exe").toList)).trans (by decide)⟩

/-- Claim C4 (counterexample). On the claim's document, taken as written with
its self-closing `FilePathRule` element, the splitter does succeed with a
non-empty Exe fragment and four empty fragments, but `ParseRuleCollection`
then fails on that fragment (no `</FilePathRule>` end tag exists), so no rule
is produced. -/
theorem claim_C4_counterexample :
    ParseRuleCollections docC4 = some ⟨fragC4, [], [], [], []⟩ ∧
    fragC4 ≠ [] ∧ (ParseRuleCollection fragC4).1 = false :=
  ⟨by decide, by decide, by decide⟩

/-- Claim C4 (amended). With the rule element closed by an explicit
`</FilePathRule>` end tag, the document splits into a non-empty Exe fragment
and four empty fragments, and parsing that fragment succeeds with exactly one
path rule carrying the identifier
`11111111-1111-1111-1111-111111111111`. -/
theorem claim_C4_amended :
    ParseRuleCollections docC4A = some ⟨fragC4A, [], [], [], []⟩ ∧
    fragC4A ≠ [] ∧
    ParseRuleCollection fragC4A = (true, 1, ⟨false, 0, 0⟩, [⟨guidC4, ruleC4⟩]) :=
  ⟨by decide, by decide, by decide⟩

/-- Claim C5 (confirmed). NotConfigured collapse: when the text before the
first `>` contains the `EnforcementMode` attribute and, at or after it, the
text `NotConfigured`, `ParseRuleCollection` returns success immediately with
enforcement-mode value 0, default extensions and an empty rule list,
regardless of any rule or extensions markup that follows. -/
theorem claim_C5_notconfigured (f : Str) (g ixE : Nat)
    (hgt : strFind f gtMark 0 = some g)
    (hem : strFind (substr f 0 g) emMark 0 = some ixE)
    (hnc : (strFind (substr f 0 g) ncMark ixE).isSome = true) :
    ParseRuleCollection f = (true, 0, ⟨false, 0, 0⟩, []) := by
  unfold ParseRuleCollection
  rw [hgt]
  dsimp only
  rw [hem]
  dsimp only
  rw [if_pos hnc]
  rfl

/-- Witness for claim C5 at a fragment that textually contains a child rule
element. -/
theorem claim_C5_notconfigured_witness :
    (strFind fragC3NC gtMark 0 = some 58 ∧
      strFind (substr fragC3NC 0 58) emMark 0 = some 27 ∧
      (strFind (substr fragC3NC 0 58) ncMark 27).isSome = true) ∧
    ParseRuleCollection fragC3NC = (true, 0, ⟨false, 0, 0⟩, []) :=
  ⟨⟨by decide, by decide, by decide⟩,
    claim_C5_notconfigured fragC3NC 58 27 (by decide) (by decide) (by decide)⟩

/-- Claim C6 (confirmed). `SaveWithRetries` uses 20 retries at 500 ms; if
every invocation reports the sharing violation the operation is invoked
exactly 21 times and the last failure is returned, and any other result is
surfaced immediately with no further invocations. -/
theorem claim_C6_retry_bound :
    saveRetries = 20 ∧ saveRetryDelayMs = 500 ∧
    (∀ save : Nat → Nat,
      (∀ i, i ≤ 20 → save i = hrSharingViolation) →
      SaveWithRetries save = (hrSharingViolation, 21)) ∧
    (∀ save : Nat → Nat, ∀ k, k ≤ 20 →
      (∀ j, j < k → save j = hrSharingViolation) →
      save k ≠ hrSharingViolation →
      SaveWithRetries save = (save k, k + 1)) := by
  refine ⟨rfl, rfl, ?_, ?_⟩
  · intro save h
    unfold SaveWithRetries
    rw [h 0 (by omega), if_pos rfl]
    have hloop := saveRetryLoop_all save 20 1 (fun i hi => h i (by omega)) (by omega)
    rw [show saveRetries = 20 from rfl, hloop]
  · intro save k hk hmin hne
    unfold SaveWithRetries
    rcases Nat.eq_zero_or_pos k with rfl | hkpos
    · rw [if_neg hne]
    · rw [hmin 0 (by omega), if_pos rfl, show saveRetries = 20 from rfl]
      exact saveRetryLoop_stop save 20 1 k (by omega) (by omega)
        (fun j h1 h2 => hmin j (by omega)) hne

/-- Witness for claim C6: the all-sharing-violation operation is invoked 21
times; an operation succeeding on its fourth invocation stops after 4. -/
theorem claim_C6_retry_bound_witness :
    SaveWithRetries saveAlwaysSV = (hrSharingViolation, 21) ∧
    SaveWithRetries saveStops3 = (saveStops3 3, 4) :=
  ⟨claim_C6_retry_bound.2.2.1 saveAlwaysSV (by decide),
   claim_C6_retry_bound.2.2.2 saveStops3 3 (by decide) (by decide) (by decide)⟩

/-- Claim C7 (confirmed). The self-closing and explicit-end encodings of an
empty Enabled Exe collection both parse to enforcement mode 1 with no rules
and default extensions; and the splitter's extent detection is self-closing
exactly under the spec's condition (a `/>` found with no `<` before it),
otherwise falling back to the explicit end tag. -/
theorem claim_C7_selfclose_equiv :
    ParseRuleCollection fragC7self = (true, 1, ⟨false, 0, 0⟩, []) ∧
    ParseRuleCollection fragC7explicit = (true, 1, ⟨false, 0, 0⟩, []) ∧
    (∀ doc d, specSelfClosing doc d = true →
      findCollectionEnd doc d = (strFind doc selfCloseMark d).map (fun e => (e, 2))) ∧
    (∀ doc d, specSelfClosing doc d = false →
      findCollectionEnd doc d = (strFind doc rcEndTag d).map (fun e => (e, 17))) :=
  ⟨by decide, by decide, findCollectionEnd_spec_self, findCollectionEnd_spec_fallback⟩

/-- Witness for claim C7 at the two concrete fragments. -/
theorem claim_C7_selfclose_equiv_witness :
    (specSelfClosing fragC7self 21 = true ∧
      findCollectionEnd fragC7self 21 =
        (strFind fragC7self selfCloseMark 21).map (fun e => (e, 2))) ∧
    (specSelfClosing fragC7explicit 21 = false ∧
      findCollectionEnd fragC7explicit 21 =
        (strFind fragC7explicit rcEndTag 21).map (fun e => (e, 17))) :=
  ⟨⟨by decide, claim_C7_selfclose_equiv.2.2.1 fragC7self 21 (by decide)⟩,
   ⟨by decide, claim_C7_selfclose_equiv.2.2.2 fragC7explicit 21 (by decide)⟩⟩

/-- Claim C8 (confirmed). If the splitter's scan reaches a rule collection
whose three-character type discriminator is outside the known five, the whole
split fails, however many well-formed collections precede or follow it. -/
theorem claim_C8_unknown_type (doc : Str)
    (hbad : scanHitsBadType doc 0 (doc.length + 1) = true) :
    ParseRuleCollections doc = none := by
  unfold ParseRuleCollections
  cases hroot : strFind doc policyRootStartMark 0 with
  | none => rfl
  | some r => exact scanBadType_splitScan_none _ doc 0 emptyCollections hbad

/-- Witness for claim C8: a document whose middle collection has type `Xyz`
between two well-formed collections fails the whole split. -/
theorem claim_C8_unknown_type_witness :
    scanHitsBadType docC8X 0 (docC8X.length + 1) = true ∧
    ParseRuleCollections docC8X = none :=
  ⟨by decide, claim_C8_unknown_type docC8X (by decide)⟩

/-- Claim C10 (confirmed). Every registry write performed by
`ApplyRuleCollection` sets the `AllowWindows` value to the constant 0, for
every input fragment; in particular for a fragment whose extensions parse to
`dwAllowWindows = 1` the parsed extension value is not transferred. -/
theorem claim_C10_allow_windows_zero :
    (∀ f dwEM aw rules,
      ApplyRuleCollection f = ApplyResult.written dwEM aw rules → aw = 0) ∧
    (ParseRuleCollection fragC10X).2.2.1.dwAllowWindows = 1 ∧
    ApplyRuleCollection fragC10X = ApplyResult.written 1 0 [] := by
  refine ⟨?_, by decide, by decide⟩
  intro f dwEM aw rules h
  unfold ApplyRuleCollection at h
  by_cases hlen : f.length = 0
  · rw [if_pos hlen] at h
    exact absurd h (by simp)
  · rw [if_neg hlen] at h
    rcases hp : ParseRuleCollection f with ⟨b, dw, ext, rs⟩
    rw [hp] at h
    cases b
    · exact absurd h (by simp)
    · dsimp only at h
      injection h with h1 h2 h3
      exact h2.symm

/-- Claim C3 (counterexample). A NotConfigured fragment that contains a
`FilePathRule` occurrence (opening tag at index 59, end tag at 82, closing
`>` at 96) whose captured span lacks the literal `Id` nevertheless makes
`ParseRuleCollection` return success with an empty rule list: the
NotConfigured early return fires before rule extraction, refuting the claim
as stated for such fragments. -/
theorem claim_C3_counterexample :
    strFind fragC3NC ('<' :: filePathRuleName) 0 = some 59 ∧
    strFind fragC3NC ('<' :: '/' :: filePathRuleName) 59 = some 82 ∧
    strFind fragC3NC gtMark 82 = some 96 ∧
    strFind (substr fragC3NC 59 38) idMark 0 = none ∧
    rulesScanHitsBadSpan fragC3NC ('<' :: filePathRuleName)
      ('<' :: '/' :: filePathRuleName) 0 (fragC3NC.length + 2) = true ∧
    ParseRuleCollection fragC3NC = (true, 0, ⟨false, 0, 0⟩, []) :=
  ⟨by decide, by decide, by decide, by decide, by decide, by decide⟩

/-- Claim C3 (amended). For every fragment whose opening tag does not select
the NotConfigured early return, if the sequential rule-extraction scan for any
of the three rule kinds captures a span lacking the literal `Id` or one of
the two quote delimiters after it, then `ParseRuleCollection` returns
failure, so no rule list is surfaced as a valid parse. -/
theorem claim_C3_missing_id_fails (f : Str)
    (hnc : ncSelected f = false)
    (hbad :
      rulesScanHitsBadSpan f ('<' :: filePathRuleName)
        ('<' :: '/' :: filePathRuleName) 0 (f.length + 2) = true ∨
      rulesScanHitsBadSpan f ('<' :: filePublisherRuleName)
        ('<' :: '/' :: filePublisherRuleName) 0 (f.length + 2) = true ∨
      rulesScanHitsBadSpan f ('<' :: fileHashRuleName)
        ('<' :: '/' :: fileHashRuleName) 0 (f.length + 2) = true) :
    (ParseRuleCollection f).1 = false := by
  unfold ParseRuleCollection
  cases hgt : strFind f gtMark 0 with
  | none => rfl
  | some g =>
    dsimp only
    cases hem : strFind (substr f 0 g) emMark 0 with
    | none => rfl
    | some ixE =>
      dsimp only
      have hncs : (strFind (substr f 0 g) ncMark ixE).isSome = false := by
        unfold ncSelected at hnc
        rw [hgt] at hnc
        dsimp only at hnc
        rw [hem] at hnc
        exact hnc
      rw [if_neg (by simp [hncs])]
      by_cases hmode : ((strFind (substr f 0 g) enabledMark ixE).isSome = true ∨
          (strFind (substr f 0 g) auditOnlyMark ixE).isSome = true)
      · rw [if_pos hmode]
        rcases hp1 : ParseRules f filePathRuleName [] with ⟨b1, rs1⟩
        cases b1
        · rfl
        · dsimp only
          rcases hbad with hb | hb | hb
          · exfalso
            have h1 := rulesScanBad_parseRulesLoop_false _ f
              ('<' :: filePathRuleName) ('<' :: '/' :: filePathRuleName) 0 [] hb
            rw [show parseRulesLoop f ('<' :: filePathRuleName)
              ('<' :: '/' :: filePathRuleName) 0 [] (f.length + 2) =
              ParseRules f filePathRuleName [] from rfl, hp1] at h1
            simp at h1
          · rcases hp2 : ParseRules f filePublisherRuleName rs1 with ⟨b2, rs2⟩
            cases b2
            · rfl
            · exfalso
              have h2 := rulesScanBad_parseRulesLoop_false _ f
                ('<' :: filePublisherRuleName) ('<' :: '/' :: filePublisherRuleName) 0 rs1 hb
              rw [show parseRulesLoop f ('<' :: filePublisherRuleName)
                ('<' :: '/' :: filePublisherRuleName) 0 rs1 (f.length + 2) =
                ParseRules f filePublisherRuleName rs1 from rfl, hp2] at h2
              simp at h2
          · rcases hp2 : ParseRules f filePublisherRuleName rs1 with ⟨b2, rs2⟩
            cases b2
            · rfl
            · dsimp only
              rcases hp3 : ParseRules f fileHashRuleName rs2 with ⟨b3, rs3⟩
              cases b3
              · rfl
              · exfalso
                have h3 := rulesScanBad_parseRulesLoop_false _ f
                  ('<' :: fileHashRuleName) ('<' :: '/' :: fileHashRuleName) 0 rs2 hb
                rw [show parseRulesLoop f ('<' :: fileHashRuleName)
                  ('<' :: '/' :: fileHashRuleName) 0 rs2 (f.length + 2) =
                  ParseRules f fileHashRuleName rs2 from rfl, hp3] at h3
                simp at h3
      · rw [if_neg hmode]

/-- Witness for the amended claim C3 at an Enabled fragment with an
`Id`-less path rule. -/
theorem claim_C3_missing_id_fails_witness :
    (ncSelected fragC3EN = false ∧
      rulesScanHitsBadSpan fragC3EN ('<' :: filePathRuleName)
        ('<' :: '/' :: filePathRuleName) 0 (fragC3EN.length + 2) = true) ∧
    (ParseRuleCollection fragC3EN).1 = false :=
  ⟨⟨by decide, by decide⟩,
    claim_C3_missing_id_fails fragC3EN (by decide) (Or.inl (by decide))⟩

/-- Claim C9 (confirmed). When a fragment contains the
`RuleCollectionExtensions` start element, `ParseExtensions` succeeds only if
the block's end marker, a `ThresholdExtensions` element, a
`RedstoneExtensions` element and both of their end elements are all found
inside the block; by contrast, absence of the `Services` child, of the
`SystemApps` child, or of their `EnforcementMode`/`Allow` attributes is not a
failure — the extension outputs stay at their defaults. -/
theorem claim_C9_extensions :
    (∀ f ixStart, strFind f rceStartMark 0 = some ixStart →
      (ParseExtensions f).1 = true →
      ∃ ixEnd ixT ixR ixTE ixRE,
        strFind f rceEndMark ixStart = some ixEnd ∧
        strFind (substr f ixStart (ixEnd - ixStart)) thresholdStartMark 0 = some ixT ∧
        strFind (substr f ixStart (ixEnd - ixStart)) redstoneStartMark 0 = some ixR ∧
        strFind (substr f ixStart (ixEnd - ixStart)) thresholdEndMark ixT = some ixTE ∧
        strFind (substr f ixStart (ixEnd - ixStart)) redstoneEndMark ixR = some ixRE) ∧
    (∀ f ixStart ixEnd ixT ixR ixTE ixRE,
      strFind f rceStartMark 0 = some ixStart →
      strFind f rceEndMark ixStart = some ixEnd →
      strFind (substr f ixStart (ixEnd - ixStart)) thresholdStartMark 0 = some ixT →
      strFind (substr f ixStart (ixEnd - ixStart)) redstoneStartMark 0 = some ixR →
      strFind (substr f ixStart (ixEnd - ixStart)) thresholdEndMark ixT = some ixTE →
      strFind (substr f ixStart (ixEnd - ixStart)) redstoneEndMark ixR = some ixRE →
      (strFind (substr (substr f ixStart (ixEnd - ixStart)) ixT (ixTE - ixT))
          servicesStartMark 0 = none ∨
        ∃ ixS, strFind (substr (substr f ixStart (ixEnd - ixStart)) ixT (ixTE - ixT))
            servicesStartMark 0 = some ixS ∧
          strFind (substr (substr f ixStart (ixEnd - ixStart)) ixT (ixTE - ixT))
            emMark ixS = none) →
      (strFind (substr (substr f ixStart (ixEnd - ixStart)) ixR (ixRE - ixR))
          systemAppsStartMark 0 = none ∨
        ∃ ixS, strFind (substr (substr f ixStart (ixEnd - ixStart)) ixR (ixRE - ixR))
            systemAppsStartMark 0 = some ixS ∧
          strFind (substr (substr f ixStart (ixEnd - ixStart)) ixR (ixRE - ixR))
            allowMark ixS = none) →
      ParseExtensions f = (true, ⟨false, 0, 0⟩)) := by
  constructor
  · intro f ixStart h1 hsucc
    unfold ParseExtensions at hsucc
    rw [h1] at hsucc
    dsimp only at hsucc
    cases h2 : strFind f rceEndMark ixStart with
    | none => rw [h2] at hsucc; simp at hsucc
    | some ixEnd =>
      rw [h2] at hsucc
      dsimp only at hsucc
      cases h3 : strFind (substr f ixStart (ixEnd - ixStart)) thresholdStartMark 0 with
      | none => rw [h3] at hsucc; simp at hsucc
      | some ixT =>
        rw [h3] at hsucc
        cases h4 : strFind (substr f ixStart (ixEnd - ixStart)) redstoneStartMark 0 with
        | none => rw [h4] at hsucc; simp at hsucc
        | some ixR =>
          rw [h4] at hsucc
          dsimp only at hsucc
          cases h5 : strFind (substr f ixStart (ixEnd - ixStart)) thresholdEndMark ixT with
          | none => rw [h5] at hsucc; simp at hsucc
          | some ixTE =>
            rw [h5] at hsucc
            cases h6 : strFind (substr f ixStart (ixEnd - ixStart)) redstoneEndMark ixR with
            | none => rw [h6] at hsucc; simp at hsucc
            | some ixRE =>
              exact ⟨ixEnd, ixT, ixR, ixTE, ixRE, rfl, h3, h4, h5, h6⟩
  · intro f ixStart ixEnd ixT ixR ixTE ixRE h1 h2 h3 h4 h5 h6 hsvc hsys
    unfold ParseExtensions
    rw [h1]
    dsimp only
    rw [h2]
    dsimp only
    rw [h3, h4]
    dsimp only
    rw [h5, h6]
    dsimp only
    have hserv : parseServicesExt
        (substr (substr f ixStart (ixEnd - ixStart)) ixT (ixTE - ixT))
        (default : RuleCollectionExtensions) = some default := by
      unfold parseServicesExt
      rcases hsvc with hn | ⟨ixS, hs, hemn⟩
      · rw [hn]
      · rw [hs]
        dsimp only
        rw [hemn]
    have hsysa : parseSystemAppsExt
        (substr (substr f ixStart (ixEnd - ixStart)) ixR (ixRE - ixR))
        (default : RuleCollectionExtensions) = some default := by
      unfold parseSystemAppsExt
      rcases hsys with hn | ⟨ixS, hs, han⟩
      · rw [hn]
      · rw [hs]
        dsimp only
        rw [han]
    rw [hserv]
    dsimp only
    rw [hsysa]
    rfl

/-- Witness for claim C9 at a fragment with a complete, empty extensions
block. -/
theorem claim_C9_extensions_witness :
    (strFind fragC9B rceStartMark 0 = some 53 ∧ (ParseExtensions fragC9B).1 = true ∧
      ∃ ixEnd ixT ixR ixTE ixRE,
        strFind fragC9B rceEndMark 53 = some ixEnd ∧
        strFind (substr fragC9B 53 (ixEnd - 53)) thresholdStartMark 0 = some ixT ∧
        strFind (substr fragC9B 53 (ixEnd - 53)) redstoneStartMark 0 = some ixR ∧
        strFind (substr fragC9B 53 (ixEnd - 53)) thresholdEndMark ixT = some ixTE ∧
        strFind (substr fragC9B 53 (ixEnd - 53)) redstoneEndMark ixR = some ixRE) ∧
    ParseExtensions fragC9B = (true, ⟨false, 0, 0⟩) :=
  ⟨⟨by decide, by decide, claim_C9_extensions.1 fragC9B 53 (by decide) (by decide)⟩,
   claim_C9_extensions.2 fragC9B 53 163 26 69 47 89 (by decide) (by decide) (by decide)
     (by decide) (by decide) (by decide) (Or.inl (by decide)) (Or.inl (by decide))⟩

/-- Witness for claim C10 applying the general zero-write fact at the
extensions-bearing fragment. -/
theorem claim_C10_allow_windows_zero_witness :
    ApplyRuleCollection fragC10X = ApplyResult.written 1 0 [] ∧ (0 : Nat) = 0 :=
  ⟨by decide, claim_C10_allow_windows_zero.1 fragC10X 1 0 [] (by decide)⟩
